import Mathlib

/-!
Verification of the Shen-Castan edge detector (ShenCastan.ipynb) against its
natural-language specification.

The source operates on dense 2D numeric buffers (numpy float arrays).  We model
a grid as a total function `ℤ → ℤ → ℚ`: the notebook casts the input image to
float before the pipeline runs, and every arithmetic operation it performs is
exact on the rationals; cells outside the written range are modelled as 0, the
value `np.zeros_like` gives to never-written cells.  The tracer's edge buffer
holds the marks {0, 1, 255}, modelled as `ℤ → ℤ → ℕ`.  The module-level
configuration constants (`s_factor`, `window_size`, `outline`, `low_thresh`,
`high_thresh`, `do_hysteresis`, `thinFactor`) become explicit parameters.
-/

abbrev Grid := ℤ → ℤ → ℚ

abbrev EdgeMap := ℤ → ℤ → ℕ

/-- Border test from the source's `isEdge` helper: a pixel is in the border
margin when `row < outline or row >= rows-outline or col < outline or
col >= columns-outline`. -/
def isEdge (outline rows cols : ℕ) (row col : ℤ) : Bool :=
  decide (row < (outline : ℤ) ∨ (rows : ℤ) - (outline : ℤ) ≤ row ∨
    col < (outline : ℤ) ∨ (cols : ℤ) - (outline : ℤ) ≤ col)

/-! ### Step 1: ISEF (`getISEF`)

Translation of the source's `getISEF`.  The first pass recurses over the row
index (each line is a fixed column), the second pass over the column index
(each line is a fixed row).  The buffers `casual` / `anti_casual` (the
source's spelling) are written once per cell per pass, so each is modelled as
a recursively defined function of its sweep index. -/

def b1 (s : ℚ) : ℚ := (1 - s) / (1 + s)

def b2 (s : ℚ) : ℚ := s * b1 s

/-- First-pass causal buffer: `casual[0][col] = b1*img[0][col]`,
`casual[row][col] = b1*img[row][col] + s*casual[row-1][col]`. -/
def casual1 (s : ℚ) (img : Grid) : ℕ → ℤ → ℚ
  | 0, col => b1 s * img 0 col
  | r + 1, col => b1 s * img ((r : ℤ) + 1) col + s * casual1 s img r col

/-- First-pass anti-causal buffer, indexed by distance `k` from the last row:
`anti_casual[rows-1][col] = b2*img[rows-1][col]`, and for the row `rows-2-k`
reached after `k+1` backward steps,
`anti_casual[row][col] = b2*img[row][col] + s*anti_casual[row+1][col]`. -/
def antiCasual1 (s : ℚ) (img : Grid) (rows : ℕ) : ℕ → ℤ → ℚ
  | 0, col => b2 s * img ((rows : ℤ) - 1) col
  | k + 1, col => b2 s * img ((rows : ℤ) - 2 - (k : ℤ)) col + s * antiCasual1 s img rows k col

/-- The source's `first_pass` buffer after the row sweep.  The boundary loop
writes `first_pass[rows-1][col] = casual[rows-1][col]` for `col < columns-1`;
the main loop writes `first_pass[row][col] = casual[row][col] +
anti_casual[row+1][col]` only for `row < rows-2` and `col < columns-1`.  Every
other cell keeps the `np.zeros_like` value 0 — in particular all of row
`rows-2` and all of column `columns-1`. -/
def firstPass (s : ℚ) (img : Grid) (rows cols : ℕ) (r c : ℕ) : ℚ :=
  if c + 1 < cols then
    if r + 1 = rows then casual1 s img r (c : ℤ)
    else if r + 2 < rows then
      casual1 s img r (c : ℤ) + antiCasual1 s img rows (rows - 1 - (r + 1)) (c : ℤ)
    else 0
  else 0

/-- Second-pass causal buffer: `casual[row][0] = b1*first_pass[row][0]`,
`casual[row][col] = b1*first_pass[row][col] + s*casual[row][col-1]`. -/
def casual2 (s : ℚ) (img : Grid) (rows cols : ℕ) (r : ℕ) : ℕ → ℚ
  | 0 => b1 s * firstPass s img rows cols r 0
  | c + 1 => b1 s * firstPass s img rows cols r (c + 1) + s * casual2 s img rows cols r c

/-- Second-pass anti-causal buffer, indexed by distance `k` from the last
column: `anti_casual[row][columns-1] = b2*first_pass[row][columns-1]`,
`anti_casual[row][col] = b2*first_pass[row][col] + s*anti_casual[row][col+1]`. -/
def antiCasual2 (s : ℚ) (img : Grid) (rows cols : ℕ) (r : ℕ) : ℕ → ℚ
  | 0 => b2 s * firstPass s img rows cols r (cols - 1)
  | k + 1 => b2 s * firstPass s img rows cols r (cols - 1 - (k + 1)) + s * antiCasual2 s img rows cols r k

/-- The source's `getISEF`: after the column sweep, `result[row][columns-1] =
casual[row][columns-1]` and `result[row][col] = casual[row][col] +
anti_casual[row][col+1]` for `col < columns-1`. -/
def getISEF (s : ℚ) (img : Grid) (rows cols : ℕ) : Grid := fun r c =>
  if 0 ≤ r ∧ r < (rows : ℤ) ∧ 0 ≤ c ∧ c < (cols : ℤ) then
    if c.toNat + 1 = cols then casual2 s img rows cols r.toNat c.toNat
    else casual2 s img rows cols r.toNat c.toNat +
      antiCasual2 s img rows cols r.toNat (cols - 1 - (c.toNat + 1))
  else 0

/-! ### Spec-side 1D recursive filter

The specification describes ISEF as a two-pass separable filter built from one
1D scheme: `causal[0] = b1*input[0]`, `causal[i] = b1*input[i] + s*causal[i-1]`,
`anticausal[n-1] = b2*input[n-1]`, `anticausal[i] = b2*input[i] +
s*anticausal[i+1]`, with combined output `output[i] = causal[i] +
anticausal[i+1]` for `i ≤ n-2` and `output[n-1] = causal[n-1]`. -/

def specCausal (a s : ℚ) (f : ℕ → ℚ) : ℕ → ℚ
  | 0 => a * f 0
  | i + 1 => a * f (i + 1) + s * specCausal a s f i

/-- Anti-causal accumulator of the spec's 1D scheme, indexed by the distance
`k` from the last index `n-1`. -/
def specAntiAux (a s : ℚ) (f : ℕ → ℚ) (n : ℕ) : ℕ → ℚ
  | 0 => a * f (n - 1)
  | k + 1 => a * f (n - 1 - (k + 1)) + s * specAntiAux a s f n k

/-- `specAnti a s f n i` is the spec's `anticausal[i]` for a line of length `n`. -/
def specAnti (a s : ℚ) (f : ℕ → ℚ) (n i : ℕ) : ℚ := specAntiAux a s f n (n - 1 - i)

/-- The spec's combined 1D output line of length `n`. -/
def specLine (s : ℚ) (f : ℕ → ℚ) (n i : ℕ) : ℚ :=
  if i = n - 1 then specCausal (b1 s) s f i
  else specCausal (b1 s) s f i + specAnti (b2 s) s f n (i + 1)

/-- The two-pass filter exactly as the claim states it: pass 1 applies the 1D
scheme to every row of the intensity grid (line = columns of a fixed row), and
pass 2 applies it to every column of the intermediate grid. -/
def claimISEF (s : ℚ) (img : Grid) (rows cols : ℕ) : Grid := fun r c =>
  if 0 ≤ r ∧ r < (rows : ℤ) ∧ 0 ≤ c ∧ c < (cols : ℤ) then
    specLine s (fun i => specLine s (fun j => img (i : ℤ) (j : ℤ)) cols c.toNat) rows r.toNat
  else 0

/-- Intermediate grid of the amended description: pass 1 applies the 1D scheme
along each **column** of the intensity grid, but assembles only rows
`0..rows-3` (combined) and row `rows-1` (causal only), and only columns
`0..columns-2`; row `rows-2` and column `columns-1` stay 0. -/
def amendInter (s : ℚ) (img : Grid) (rows cols : ℕ) (r c : ℕ) : ℚ :=
  if c + 1 < cols then
    if r + 1 = rows then specCausal (b1 s) s (fun i => img (i : ℤ) (c : ℤ)) r
    else if r + 2 < rows then
      specCausal (b1 s) s (fun i => img (i : ℤ) (c : ℤ)) r +
        specAnti (b2 s) s (fun i => img (i : ℤ) (c : ℤ)) rows (r + 1)
    else 0
  else 0

/-- The amended two-pass description of `getISEF`: the quirky column-direction
pass 1 (`amendInter`) followed by the full 1D scheme along each row. -/
def amendISEF (s : ℚ) (img : Grid) (rows cols : ℕ) : Grid := fun r c =>
  if 0 ≤ r ∧ r < (rows : ℤ) ∧ 0 ≤ c ∧ c < (cols : ℤ) then
    specLine s (fun j => amendInter s img rows cols r.toNat j) cols c.toNat
  else 0

/-- C1 counterexample grid: a 2×2 all-ones image. -/
def onesGrid : Grid := fun _ _ => 1

/-! ### Step 2: the binary Laplacian (`getBLI`)

`result[row][col] = float((imgISEF[row][col] - img[row][col]) > 0.0)` for every
in-range cell. -/

def getBLI (img isef : Grid) (rows cols : ℕ) : Grid := fun r c =>
  if 0 ≤ r ∧ r < (rows : ℤ) ∧ 0 ≤ c ∧ c < (cols : ℤ) then
    if 0 < isef r c - img r c then 1 else 0
  else 0

/-! ### Step 3: zero crossings (`isEdgeCandidate`, `adaptiveGradient`, `locateZc`)

Python list indexing admits negative indices (`a[-1]` is the last entry), and
`adaptiveGradient`'s window can reach index −1 when `outline < window_size/2`;
`pyIdx`/`pyGet` reproduce that wrap-around. -/

def pyIdx (n : ℕ) (i : ℤ) : ℤ := if i < 0 then i + n else i

def pyGet (g : Grid) (rows cols : ℕ) (r c : ℤ) : ℚ := g (pyIdx rows r) (pyIdx cols c)

/-- The source's `isEdgeCandidate`: four directional sign-change patterns tried
in order (positive row, positive column, negative row, negative column); the
first pattern whose BLI test fires decides candidacy by its ISEF sign test. -/
def isEdgeCandidate (bli isef : Grid) (rows cols : ℕ) (row col : ℤ) : Bool :=
  if pyGet bli rows cols row col = 1 ∧ pyGet bli rows cols (row + 1) col = 0 then
    decide (0 < pyGet isef rows cols (row + 1) col - pyGet isef rows cols (row - 1) col)
  else if pyGet bli rows cols row col = 1 ∧ pyGet bli rows cols row (col + 1) = 0 then
    decide (0 < pyGet isef rows cols row (col + 1) - pyGet isef rows cols row (col - 1))
  else if pyGet bli rows cols row col = 1 ∧ pyGet bli rows cols (row - 1) col = 0 then
    decide (pyGet isef rows cols (row + 1) col - pyGet isef rows cols (row - 1) col < 0)
  else if pyGet bli rows cols row col = 1 ∧ pyGet bli rows cols row (col - 1) = 0 then
    decide (pyGet isef rows cols row (col + 1) - pyGet isef rows cols row (col - 1) < 0)
  else false

/-- Window offsets `range(int(-window_size/2), int(window_size/2))`: the
`ws/2 + ws/2` integers from `-(ws/2)` up to `ws/2 - 1` (`int` truncates toward
zero, which on `-ws/2` matches negating the floor of `ws/2`). -/
def winOffsets (ws : ℕ) : List ℤ :=
  (List.range (ws / 2 + ws / 2)).map (fun k : ℕ => (k : ℤ) - (ws / 2 : ℕ))

/-- The window cells `(row+i, col+j)` visited by `adaptiveGradient`'s loops. -/
def windowCells (ws : ℕ) (row col : ℤ) : List (ℤ × ℤ) :=
  (winOffsets ws).flatMap (fun i => (winOffsets ws).map (fun j => (row + i, col + j)))

/-- Window cells whose BLI value is > 0 (counted by `num_on`). -/
def windowOn (bli : Grid) (rows cols ws : ℕ) (row col : ℤ) : List (ℤ × ℤ) :=
  (windowCells ws row col).filter (fun p => decide (0 < pyGet bli rows cols p.1 p.2))

/-- Window cells whose BLI value is not > 0 (counted by `num_off`). -/
def windowOff (bli : Grid) (rows cols ws : ℕ) (row col : ℤ) : List (ℤ × ℤ) :=
  (windowCells ws row col).filter (fun p => decide (¬ 0 < pyGet bli rows cols p.1 p.2))

/-- `sum_on`: total ISEF intensity over the window cells with BLI > 0. -/
def sumOn (bli isef : Grid) (rows cols ws : ℕ) (row col : ℤ) : ℚ :=
  ((windowOn bli rows cols ws row col).map (fun p => pyGet isef rows cols p.1 p.2)).sum

/-- `sum_off`: total ISEF intensity over the window cells with BLI ≤ 0. -/
def sumOff (bli isef : Grid) (rows cols ws : ℕ) (row col : ℤ) : ℚ :=
  ((windowOff bli rows cols ws row col).map (fun p => pyGet isef rows cols p.1 p.2)).sum

/-- The source's `adaptiveGradient`: guarded averages
`avg = sum/num if sum > 0.0 else 0`, result `avg_off - avg_on`. -/
def adaptiveGradient (bli isef : Grid) (rows cols ws : ℕ) (row col : ℤ) : ℚ :=
  (if 0 < sumOff bli isef rows cols ws row col then
    sumOff bli isef rows cols ws row col / ((windowOff bli rows cols ws row col).length : ℚ)
  else 0) -
  (if 0 < sumOn bli isef rows cols ws row col then
    sumOn bli isef rows cols ws row col / ((windowOn bli rows cols ws row col).length : ℚ)
  else 0)

/-- The source's `locateZc`: border pixels keep 0, candidates get the adaptive
gradient, all other pixels get 0. -/
def locateZc (isef bli : Grid) (rows cols outline ws : ℕ) : Grid := fun r c =>
  if 0 ≤ r ∧ r < (rows : ℤ) ∧ 0 ≤ c ∧ c < (cols : ℤ) then
    if isEdge outline rows cols r c then 0
    else if isEdgeCandidate bli isef rows cols r c then
      adaptiveGradient bli isef rows cols ws r c
    else 0
  else 0

/-! ### Step 4: connected edge tracing (`mark_connected`, `threshold_edges`)

`mark_connected` is recursive with a globally shared `edges` buffer; we thread
the buffer explicitly and bound the call depth with fuel (`none` = fuel ran
out; the termination theorem shows a fuel of `rows*cols + 2` never does).
A call's Bool result is the source's 0/1 return value: `true` = the call
produced a mark. -/

def writeE (e : EdgeMap) (r c : ℤ) (v : ℕ) : EdgeMap :=
  fun r' c' => if r' = r ∧ c' = c then v else e r' c'

/-- The eight neighbor offsets, in the exact order the source recurses:
(r,c+1), (r,c-1), (r+1,c+1), (r+1,c), (r+1,c-1), (r-1,c-1), (r-1,c), (r-1,c+1). -/
def neighborOffsets : List (ℤ × ℤ) :=
  [(0, 1), (0, -1), (1, 1), (1, 0), (1, -1), (-1, -1), (-1, 0), (-1, 1)]

/-- Sequentially runs `step` on a list of pixels, threading the edge buffer and
OR-ing the Bool results (the source's `notChainEnd |= mark_connected(...)`). -/
def markList (step : EdgeMap → ℤ → ℤ → Option (EdgeMap × Bool)) :
    EdgeMap → Bool → List (ℤ × ℤ) → Option (EdgeMap × Bool)
  | e, acc, [] => some (e, acc)
  | e, acc, p :: ps =>
    match step e p.1 p.2 with
    | none => none
    | some x => markList step x.1 (acc || x.2) ps

/-- The mark written on first visit: 1 if `img[row][col] > low_thresh`, else
the provisional 255. -/
def markVal (low : ℚ) (img : Grid) (r c : ℤ) : ℕ := if low < img r c then 1 else 255

/-- The source's `mark_connected`.  Returns the updated edge buffer and the
call's 0/1 result: visited or zero-strength pixels return immediately with
`false`; otherwise the pixel is marked, the eight neighbors are traversed at
`level+1`, and the pixel is re-marked 255 when the neighbors' OR is true,
`level > 0`, `thinFactor > 0` and `level % thinFactor ≠ 0`. -/
def markConnected (low : ℚ) (thin : ℕ) (img : Grid) :
    ℕ → EdgeMap → ℤ → ℤ → ℕ → Option (EdgeMap × Bool)
  | 0, _, _, _, _ => none
  | fuel + 1, e, r, c, level =>
    if e r c ≠ 0 then some (e, false)
    else if img r c = 0 then some (e, false)
    else
      match markList (fun e' r' c' => markConnected low thin img fuel e' r' c' (level + 1))
          (writeE e r c (markVal low img r c)) false
          (neighborOffsets.map (fun d => (r + d.1, c + d.2))) with
      | none => none
      | some x =>
        some (if x.2 = true ∧ 0 < level ∧ 0 < thin ∧ level % thin ≠ 0 then
          writeE x.1 r c 255 else x.1, true)

/-- All grid cells in the source's row-major scan order. -/
def cellList (rows cols : ℕ) : List (ℤ × ℤ) :=
  (List.range rows).flatMap
    (fun r : ℕ => (List.range cols).map (fun c : ℕ => ((r : ℤ), (c : ℤ))))

/-- The seeding loop of `threshold_edges`: every non-border pixel whose
strength exceeds `high_thresh` roots a traversal at level 0. -/
def seedScan (low high : ℚ) (thin outline rows cols : ℕ) (img : Grid) (fuel : ℕ) :
    EdgeMap → List (ℤ × ℤ) → Option EdgeMap
  | e, [] => some e
  | e, p :: ps =>
    if isEdge outline rows cols p.1 p.2 then
      seedScan low high thin outline rows cols img fuel e ps
    else if high < img p.1 p.2 then
      match markConnected low thin img fuel e p.1 p.2 0 with
      | none => none
      | some x => seedScan low high thin outline rows cols img fuel x.1 ps
    else seedScan low high thin outline rows cols img fuel e ps

/-- The final pass of `threshold_edges`: every in-range 255 cell is reset to 0. -/
def stripProvisional (rows cols : ℕ) (e : EdgeMap) : EdgeMap := fun r c =>
  if 0 ≤ r ∧ r < (rows : ℤ) ∧ 0 ≤ c ∧ c < (cols : ℤ) ∧ e r c = 255 then 0 else e r c

/-- The source's `threshold_edges`.  Its line `low_thresh = high_thresh` under
`if not do_hysteresis` binds a variable local to `threshold_edges` that
`mark_connected` — which reads the module-level `low_thresh` — never sees, so
`do_hysteresis` has no effect on the traversal; the model keeps the parameter
to state that, but faithfully ignores it. -/
def thresholdEdgesO (low high : ℚ) (doHyst : Bool) (thin outline rows cols : ℕ)
    (img : Grid) : Option EdgeMap :=
  (seedScan low high thin outline rows cols img (rows * cols + 2)
    (fun _ _ => 0) (cellList rows cols)).map (stripProvisional rows cols)

/-- Total wrapper: the termination theorem shows the fuel `rows*cols + 2`
always suffices, so the default is never taken on the grids the pipeline
passes in. -/
def thresholdEdges (low high : ℚ) (doHyst : Bool) (thin outline rows cols : ℕ)
    (img : Grid) : EdgeMap :=
  (thresholdEdgesO low high doHyst thin outline rows cols img).getD (fun _ _ => 0)

/-! ### Step 5: the driver (`shenCastan`) -/

/-- The source's `shenCastan`: ISEF, BLI, zero crossings, threshold edges, then
normalize every in-range cell to 255 if positive and 0 otherwise. -/
def shenCastan (s : ℚ) (ws outline : ℕ) (low high : ℚ) (doHyst : Bool) (thin : ℕ)
    (img : Grid) (rows cols : ℕ) : EdgeMap :=
  let isef := getISEF s img rows cols
  let bli := getBLI img isef rows cols
  let zc := locateZc isef bli rows cols outline ws
  let e := thresholdEdges low high doHyst thin outline rows cols zc
  fun r c =>
    if 0 ≤ r ∧ r < (rows : ℤ) ∧ 0 ≤ c ∧ c < (cols : ℤ) then
      if 0 < e r c then 255 else 0
    else e r c

/-! ### Tracer invariants -/

/-- `untouched a b`: passing from buffer `a` to buffer `b`, every already
visited cell keeps its exact mark. -/
def untouched (a b : EdgeMap) : Prop := ∀ p q : ℤ, a p q ≠ 0 → b p q = a p q

/-- `zimgPres img a b`: cells with zero strength are never written. -/
def zimgPres (img : Grid) (a b : EdgeMap) : Prop :=
  ∀ p q : ℤ, img p q = 0 → b p q = a p q

/-- `freshMarks low img a b`: buffer `b` differs from `a` only by fresh marks —
each changed cell was unvisited, has nonzero strength, and now holds exactly
the source's first-visit mark (1 above `low_thresh`, else 255). -/
def freshMarks (low : ℚ) (img : Grid) (a b : EdgeMap) : Prop :=
  ∀ p q : ℤ, b p q = a p q ∨ (a p q = 0 ∧ img p q ≠ 0 ∧ b p q = markVal low img p q)

/-- Candidate strength grid for the C3 scenario: a 3×5 grid whose only nonzero
strengths are 3 at (1,1) and 1 at (1,2). -/
def c3img : Grid := fun r c =>
  if r = 1 ∧ c = 1 then 3 else if r = 1 ∧ c = 2 then 1 else 0

/-- Candidate strength grid for the C2/C7 scenarios: a 3×5 grid with a
horizontal chain of strengths 4, 5, 4 at (1,1), (1,2), (1,3). -/
def c7img : Grid := fun r c =>
  if r = 1 ∧ c = 1 then 4
  else if r = 1 ∧ c = 2 then 5
  else if r = 1 ∧ c = 3 then 4
  else 0

/-- Witness grid with a single nonzero strength at the origin. -/
def dotImg : Grid := fun p q => if p = 0 ∧ q = 0 then 1 else 0

/-- Number of confirmed-edge pixels: in-range cells whose final tracer value is
positive (exactly the cells the driver normalizes to 255). -/
def countEdges (e : EdgeMap) (rows cols : ℕ) : ℕ :=
  ((cellList rows cols).toFinset.filter (fun p => 0 < e p.1 p.2)).card

/-- The 10×10 uniform intensity grid of the C8 scenario. -/
def uni100 : Grid := fun _ _ => 100

/-! ### Spec-side zero-crossing locator -/

/-- The claim's square window, spanning `[-window_size/2, window_size/2)` in
both axes. -/
def zcWindow (ws : ℕ) : Finset (ℤ × ℤ) :=
  (Finset.Ico (-((ws / 2 : ℕ) : ℤ)) ((ws / 2 : ℕ) : ℤ)) ×ˢ
    (Finset.Ico (-((ws / 2 : ℕ) : ℤ)) ((ws / 2 : ℕ) : ℤ))

/-- The claim's four directional sign-change patterns, in the checked priority
order: downward-row, downward-column, upward-row, upward-column; the first
pattern whose BLI transition fires decides candidacy by its smoothed-grid
sign test. -/
def candSpec (bli isef : Grid) (rows cols : ℕ) (row col : ℤ) : Bool :=
  if pyGet bli rows cols row col = 1 ∧ pyGet bli rows cols (row + 1) col = 0 then
    decide (0 < pyGet isef rows cols (row + 1) col - pyGet isef rows cols (row - 1) col)
  else if pyGet bli rows cols row col = 1 ∧ pyGet bli rows cols row (col + 1) = 0 then
    decide (0 < pyGet isef rows cols row (col + 1) - pyGet isef rows cols row (col - 1))
  else if pyGet bli rows cols row col = 1 ∧ pyGet bli rows cols (row - 1) col = 0 then
    decide (pyGet isef rows cols (row + 1) col - pyGet isef rows cols (row - 1) col < 0)
  else if pyGet bli rows cols row col = 1 ∧ pyGet bli rows cols row (col - 1) = 0 then
    decide (pyGet isef rows cols row (col + 1) - pyGet isef rows cols row (col - 1) < 0)
  else false

/-- The claim's adaptive gradient: partition the window by BLI value, average
each side as sum/num but guarded to 0 when the sum is not positive, and
return `avg_off - avg_on`. -/
def gradSpec (bli isef : Grid) (rows cols ws : ℕ) (row col : ℤ) : ℚ :=
  (if 0 < ∑ d ∈ (zcWindow ws).filter
      (fun d => ¬ 0 < pyGet bli rows cols (row + d.1) (col + d.2)),
      pyGet isef rows cols (row + d.1) (col + d.2) then
    (∑ d ∈ (zcWindow ws).filter
      (fun d => ¬ 0 < pyGet bli rows cols (row + d.1) (col + d.2)),
      pyGet isef rows cols (row + d.1) (col + d.2)) /
    (((zcWindow ws).filter
      (fun d => ¬ 0 < pyGet bli rows cols (row + d.1) (col + d.2))).card : ℚ)
  else 0) -
  (if 0 < ∑ d ∈ (zcWindow ws).filter
      (fun d => 0 < pyGet bli rows cols (row + d.1) (col + d.2)),
      pyGet isef rows cols (row + d.1) (col + d.2) then
    (∑ d ∈ (zcWindow ws).filter
      (fun d => 0 < pyGet bli rows cols (row + d.1) (col + d.2)),
      pyGet isef rows cols (row + d.1) (col + d.2)) /
    (((zcWindow ws).filter
      (fun d => 0 < pyGet bli rows cols (row + d.1) (col + d.2))).card : ℚ)
  else 0)

/-- The claim's description of the zero-crossing locator: border pixels get 0,
a pixel matching one of the four patterns (first match wins) gets the guarded
windowed gradient, every other pixel gets 0. -/
def zcSpec (isef bli : Grid) (rows cols outline ws : ℕ) : Grid := fun r c =>
  if 0 ≤ r ∧ r < (rows : ℤ) ∧ 0 ≤ c ∧ c < (cols : ℤ) then
    if isEdge outline rows cols r c then 0
    else if candSpec bli isef rows cols r c then gradSpec bli isef rows cols ws r c
    else 0
  else 0

/-! ### Lemmas and claim theorems -/

lemma casual1_eq (s : ℚ) (img : Grid) (c : ℤ) :
    ∀ r, casual1 s img r c = specCausal (b1 s) s (fun i => img (i : ℤ) c) r := by
  intro r
  induction r with
  | zero => rfl
  | succ n ih =>
    show b1 s * img ((n : ℤ) + 1) c + s * casual1 s img n c = _
    rw [ih]
    show _ = b1 s * img ((n + 1 : ℕ) : ℤ) c + s * specCausal (b1 s) s (fun i => img (i : ℤ) c) n
    push_cast
    ring

lemma antiCasual1_eq (s : ℚ) (img : Grid) (rows : ℕ) (c : ℤ) :
    ∀ k, k + 1 ≤ rows →
      antiCasual1 s img rows k c = specAntiAux (b2 s) s (fun i => img (i : ℤ) c) rows k := by
  intro k
  induction k with
  | zero =>
    intro h
    show b2 s * img ((rows : ℤ) - 1) c = b2 s * img ((rows - 1 : ℕ) : ℤ) c
    congr 2
    omega
  | succ n ih =>
    intro h
    show b2 s * img ((rows : ℤ) - 2 - (n : ℤ)) c + s * antiCasual1 s img rows n c = _
    rw [ih (by omega)]
    show _ = b2 s * img ((rows - 1 - (n + 1) : ℕ) : ℤ) c + s * specAntiAux (b2 s) s (fun i => img (i : ℤ) c) rows n
    congr 3
    omega

lemma firstPass_eq (s : ℚ) (img : Grid) (rows cols : ℕ) (r c : ℕ) :
    firstPass s img rows cols r c = amendInter s img rows cols r c := by
  unfold firstPass amendInter
  by_cases h1 : c + 1 < cols
  · simp only [h1, if_true]
    by_cases h2 : r + 1 = rows
    · simp only [h2, if_true, casual1_eq]
    · simp only [h2, if_false]
      by_cases h3 : r + 2 < rows
      · simp only [h3, if_true, casual1_eq, specAnti]
        rw [antiCasual1_eq s img rows (c : ℤ) (rows - 1 - (r + 1)) (by omega)]
      · simp only [h3, if_false]
  · simp only [h1, if_false]

lemma casual2_eq (s : ℚ) (img : Grid) (rows cols : ℕ) (r : ℕ) :
    ∀ c, casual2 s img rows cols r c =
      specCausal (b1 s) s (fun j => amendInter s img rows cols r j) c := by
  intro c
  induction c with
  | zero =>
    show b1 s * firstPass s img rows cols r 0 = b1 s * amendInter s img rows cols r 0
    rw [firstPass_eq]
  | succ n ih =>
    show b1 s * firstPass s img rows cols r (n + 1) + s * casual2 s img rows cols r n = _
    rw [firstPass_eq, ih]
    rfl

lemma antiCasual2_eq (s : ℚ) (img : Grid) (rows cols : ℕ) (r : ℕ) :
    ∀ k, antiCasual2 s img rows cols r k =
      specAntiAux (b2 s) s (fun j => amendInter s img rows cols r j) cols k := by
  intro k
  induction k with
  | zero =>
    show b2 s * firstPass s img rows cols r (cols - 1) = _
    rw [firstPass_eq]
    rfl
  | succ n ih =>
    show b2 s * firstPass s img rows cols r (cols - 1 - (n + 1)) + s * antiCasual2 s img rows cols r n = _
    rw [firstPass_eq, ih]
    rfl

/-- C1: the claim as stated fails on the code.  At the 2×2 all-ones grid with
smoothing factor s = 1/2 (so 0 < s < 1), `getISEF` differs from the spec's
two-pass row-then-column scheme at pixel (0,0): the code leaves the whole
row `rows-2` and column `columns-1` of its intermediate grid at 0 (its
combine loops stop one line short), so the output is 0 there while the
spec's clean scheme gives 1/4. -/
theorem C1_counterexample :
    (0 < (1/2 : ℚ) ∧ (1/2 : ℚ) < 1) ∧
      getISEF (1/2) onesGrid 2 2 0 0 ≠ claimISEF (1/2) onesGrid 2 2 0 0 := by
  constructor
  · constructor <;> norm_num
  · with_unfolding_all decide

/-- C1 (amended): for every intensity grid and smoothing factor s with
0 < s < 1, `getISEF` equals the two-pass filter in which pass 1 applies the
1D causal/anti-causal scheme along each **column** of the intensity grid but
assembles only rows 0..rows-3 (combined) and row rows-1 (causal alone) of
columns 0..columns-2, leaving row rows-2 and column columns-1 zero, and
pass 2 applies the full 1D scheme along each row of that intermediate grid. -/
theorem C1_amended_ISEF (s : ℚ) (img : Grid) (rows cols : ℕ)
    (hs0 : 0 < s) (hs1 : s < 1) :
    ∀ r c : ℤ, getISEF s img rows cols r c = amendISEF s img rows cols r c := by
  intro r c
  unfold getISEF amendISEF
  by_cases h : 0 ≤ r ∧ r < (rows : ℤ) ∧ 0 ≤ c ∧ c < (cols : ℤ)
  · rw [if_pos h, if_pos h]
    obtain ⟨h1, h2, h3, h4⟩ := h
    have hcn : c.toNat < cols := by omega
    unfold specLine
    by_cases hc : c.toNat + 1 = cols
    · rw [if_pos hc, if_pos (show c.toNat = cols - 1 by omega), casual2_eq]
    · rw [if_neg hc, if_neg (show ¬ c.toNat = cols - 1 by omega),
        casual2_eq, antiCasual2_eq]
      rfl
  · rw [if_neg h, if_neg h]

/-- Witness for C1_amended_ISEF at a concrete grid, factor and pixel. -/
theorem C1_amended_witness :
    (0 < (1/2 : ℚ) ∧ (1/2 : ℚ) < 1) ∧
      getISEF (1/2) onesGrid 2 2 1 1 = amendISEF (1/2) onesGrid 2 2 1 1 :=
  ⟨⟨by norm_num, by norm_num⟩,
    C1_amended_ISEF (1/2) onesGrid 2 2 (by norm_num) (by norm_num) 1 1⟩

/-- C5: for every pair of grids, every in-range cell of `getBLI` is 1 exactly
when `Smoothed - Intensity > 0` and 0 otherwise, and every cell of the result
(in range or not) is exactly 0 or 1. -/
theorem C5_getBLI (img isef : Grid) (rows cols : ℕ) (r c : ℤ) :
    (0 ≤ r → r < (rows : ℤ) → 0 ≤ c → c < (cols : ℤ) →
      getBLI img isef rows cols r c = (if 0 < isef r c - img r c then 1 else 0)) ∧
    (getBLI img isef rows cols r c = 0 ∨ getBLI img isef rows cols r c = 1) := by
  constructor
  · intro h1 h2 h3 h4
    unfold getBLI
    rw [if_pos ⟨h1, h2, h3, h4⟩]
  · unfold getBLI
    split
    · split
      · right; rfl
      · left; rfl
    · left; rfl

/-- Witness for C5_getBLI: the all-ones intensity and all-twos smoothed grid
at pixel (0,0) of a 1×1 image. -/
theorem C5_getBLI_witness :
    getBLI (fun _ _ => 1) (fun _ _ => 2) 1 1 0 0 =
      (if 0 < (fun (_ _ : ℤ) => (2 : ℚ)) 0 0 - (fun (_ _ : ℤ) => (1 : ℚ)) 0 0 then 1 else 0) :=
  (C5_getBLI (fun _ _ => 1) (fun _ _ => 2) 1 1 0 0).1
    (by decide) (by decide) (by decide) (by decide)

/-- C10: in `adaptiveGradient` a strictly positive side sum forces the
corresponding counter to be at least 1 (an empty side has sum 0), so the two
divisions, each guarded by its sum being positive, always have a nonzero
denominator: the function equals the variant whose divisions are additionally
guarded by their counters being positive, and is total. -/
theorem C10_adaptiveGradient_safe (bli isef : Grid) (rows cols ws : ℕ) (row col : ℤ) :
    (0 < sumOff bli isef rows cols ws row col →
      0 < (windowOff bli rows cols ws row col).length) ∧
    (0 < sumOn bli isef rows cols ws row col →
      0 < (windowOn bli rows cols ws row col).length) ∧
    adaptiveGradient bli isef rows cols ws row col =
      (if 0 < sumOff bli isef rows cols ws row col ∧
          0 < (windowOff bli rows cols ws row col).length then
        sumOff bli isef rows cols ws row col /
          ((windowOff bli rows cols ws row col).length : ℚ)
      else 0) -
      (if 0 < sumOn bli isef rows cols ws row col ∧
          0 < (windowOn bli rows cols ws row col).length then
        sumOn bli isef rows cols ws row col /
          ((windowOn bli rows cols ws row col).length : ℚ)
      else 0) := by
  have hoff : 0 < sumOff bli isef rows cols ws row col →
      0 < (windowOff bli rows cols ws row col).length := by
    intro h
    rcases Nat.eq_zero_or_pos (windowOff bli rows cols ws row col).length with h0 | h0
    · exfalso
      rw [List.length_eq_zero] at h0
      unfold sumOff at h
      rw [h0] at h
      simp at h
    · exact h0
  have hon : 0 < sumOn bli isef rows cols ws row col →
      0 < (windowOn bli rows cols ws row col).length := by
    intro h
    rcases Nat.eq_zero_or_pos (windowOn bli rows cols ws row col).length with h0 | h0
    · exfalso
      rw [List.length_eq_zero] at h0
      unfold sumOn at h
      rw [h0] at h
      simp at h
    · exact h0
  refine ⟨hoff, hon, ?_⟩
  unfold adaptiveGradient
  congr 1
  · exact if_congr (Iff.intro (fun h => ⟨h, hoff h⟩) And.left) rfl rfl
  · exact if_congr (Iff.intro (fun h => ⟨h, hon h⟩) And.left) rfl rfl

/-- Witness for C10_adaptiveGradient_safe: an all-zero BLI and all-ones ISEF
grid with a 2×2 window makes `sum_off` = 4 > 0, and the theorem yields a
positive `num_off`. -/
theorem C10_adaptiveGradient_witness :
    0 < sumOff (fun _ _ => 0) (fun _ _ => 1) 5 5 2 2 2 ∧
      0 < (windowOff (fun _ _ => 0) 5 5 2 2 2).length :=
  ⟨by with_unfolding_all decide,
    (C10_adaptiveGradient_safe (fun _ _ => 0) (fun _ _ => 1) 5 5 2 2 2).1
      (by with_unfolding_all decide)⟩

lemma writeE_self (e : EdgeMap) (r c : ℤ) (v : ℕ) : writeE e r c v r c = v := by
  simp [writeE]

lemma writeE_other (e : EdgeMap) (r c : ℤ) (v : ℕ) (r' c' : ℤ)
    (h : ¬ (r' = r ∧ c' = c)) : writeE e r c v r' c' = e r' c' := by
  simp only [writeE, if_neg h]

lemma untouched_refl (e : EdgeMap) : untouched e e := fun _ _ _ => rfl

lemma untouched_trans {a b c : EdgeMap} (h1 : untouched a b) (h2 : untouched b c) :
    untouched a c := by
  intro p q h
  rw [h2 p q (by rw [h1 p q h]; exact h), h1 p q h]

lemma markList_pres (step : EdgeMap → ℤ → ℤ → Option (EdgeMap × Bool))
    (P : EdgeMap → EdgeMap → Prop)
    (hrefl : ∀ e, P e e)
    (htrans : ∀ a b c, P a b → P b c → P a c)
    (hstep : ∀ e r c x, step e r c = some x → P e x.1) :
    ∀ l e acc x, markList step e acc l = some x → P e x.1 := by
  intro l
  induction l with
  | nil =>
    intro e acc x h
    rw [markList] at h
    injection h with h'
    rw [← h']
    exact hrefl e
  | cons p ps ih =>
    intro e acc x h
    rw [markList] at h
    cases hs : step e p.1 p.2 with
    | none => rw [hs] at h; exact absurd h (by simp)
    | some y =>
      rw [hs] at h
      exact htrans _ _ _ (hstep _ _ _ _ hs) (ih _ _ _ h)

lemma markConnected_pres (low : ℚ) (thin : ℕ) (img : Grid) :
    ∀ fuel e r c level x, markConnected low thin img fuel e r c level = some x →
      untouched e x.1 := by
  intro fuel
  induction fuel with
  | zero =>
    intro e r c level x h
    rw [markConnected] at h
    exact absurd h (by simp)
  | succ f ih =>
    intro e r c level x h
    rw [markConnected] at h
    by_cases h1 : e r c ≠ 0
    · rw [if_pos h1] at h
      injection h with h'
      rw [← h']
      exact untouched_refl e
    · rw [if_neg h1] at h
      by_cases h2 : img r c = 0
      · rw [if_pos h2] at h
        injection h with h'
        rw [← h']
        exact untouched_refl e
      · rw [if_neg h2] at h
        cases hL : markList (fun e' r' c' => markConnected low thin img f e' r' c' (level + 1))
            (writeE e r c (markVal low img r c)) false
            (neighborOffsets.map (fun d => (r + d.1, c + d.2))) with
        | none => rw [hL] at h; exact absurd h (by simp)
        | some y =>
          rw [hL] at h
          injection h with h'
          have hec : e r c = 0 := by
            by_contra hcon
            exact h1 hcon
          have hy : untouched (writeE e r c (markVal low img r c)) y.1 :=
            markList_pres _ untouched untouched_refl (fun _ _ _ => untouched_trans)
              (fun e' r' c' x' hx' => ih e' r' c' (level + 1) x' hx') _ _ _ _ hL
          intro p q hpq
          have hne : ¬ (p = r ∧ q = c) := by
            rintro ⟨rfl, rfl⟩
            exact hpq hec
          have hw : writeE e r c (markVal low img r c) p q = e p q := writeE_other _ _ _ _ _ _ hne
          have hy' : y.1 p q = e p q := by
            rw [hy p q (by rw [hw]; exact hpq), hw]
          rw [← h']
          by_cases hd : y.2 = true ∧ 0 < level ∧ 0 < thin ∧ level % thin ≠ 0
          · rw [if_pos hd]
            show writeE y.1 r c 255 p q = e p q
            rw [writeE_other _ _ _ _ _ _ hne, hy']
          · rw [if_neg hd]
            exact hy'

lemma markConnected_visited (low : ℚ) (thin : ℕ) (img : Grid) (f : ℕ) (e : EdgeMap)
    (r c : ℤ) (level : ℕ) (h1 : e r c ≠ 0) :
    markConnected low thin img (f + 1) e r c level = some (e, false) := by
  rw [markConnected, if_pos h1]

lemma markConnected_zeroStrength (low : ℚ) (thin : ℕ) (img : Grid) (f : ℕ) (e : EdgeMap)
    (r c : ℤ) (level : ℕ) (h1 : e r c = 0) (h2 : img r c = 0) :
    markConnected low thin img (f + 1) e r c level = some (e, false) := by
  rw [markConnected, if_neg (fun hn => hn h1), if_pos h2]

lemma markConnected_succ_eq (low : ℚ) (thin : ℕ) (img : Grid) (f : ℕ) (e : EdgeMap)
    (r c : ℤ) (level : ℕ) (h1 : e r c = 0) (h2 : img r c ≠ 0) :
    markConnected low thin img (f + 1) e r c level =
      match markList (fun e' r' c' => markConnected low thin img f e' r' c' (level + 1))
          (writeE e r c (markVal low img r c)) false
          (neighborOffsets.map (fun d => (r + d.1, c + d.2))) with
      | none => none
      | some y =>
        some (if y.2 = true ∧ 0 < level ∧ 0 < thin ∧ level % thin ≠ 0 then
          writeE y.1 r c 255 else y.1, true) := by
  rw [markConnected, if_neg (fun hn => hn h1), if_neg h2]

lemma markVal_ne_zero (low : ℚ) (img : Grid) (r c : ℤ) : markVal low img r c ≠ 0 := by
  unfold markVal
  split <;> simp

lemma zimgPres_refl (img : Grid) (e : EdgeMap) : zimgPres img e e := fun _ _ _ => rfl

lemma zimgPres_trans (img : Grid) {a b c : EdgeMap} (h1 : zimgPres img a b)
    (h2 : zimgPres img b c) : zimgPres img a c := by
  intro p q h
  rw [h2 p q h, h1 p q h]

lemma markConnected_zimg (low : ℚ) (thin : ℕ) (img : Grid) :
    ∀ fuel e r c level x, markConnected low thin img fuel e r c level = some x →
      zimgPres img e x.1 := by
  intro fuel
  induction fuel with
  | zero =>
    intro e r c level x h
    rw [markConnected] at h
    exact absurd h (by simp)
  | succ f ih =>
    intro e r c level x h
    by_cases h1 : e r c ≠ 0
    · rw [markConnected_visited low thin img f e r c level h1] at h
      injection h with h'
      rw [← h']
      exact zimgPres_refl img e
    · have hec : e r c = 0 := by by_contra hcon; exact h1 hcon
      by_cases h2 : img r c = 0
      · rw [markConnected_zeroStrength low thin img f e r c level hec h2] at h
        injection h with h'
        rw [← h']
        exact zimgPres_refl img e
      · rw [markConnected_succ_eq low thin img f e r c level hec h2] at h
        cases hL : markList (fun e' r' c' => markConnected low thin img f e' r' c' (level + 1))
            (writeE e r c (markVal low img r c)) false
            (neighborOffsets.map (fun d => (r + d.1, c + d.2))) with
        | none => rw [hL] at h; exact absurd h (by simp)
        | some y =>
          rw [hL] at h
          injection h with h'
          have hy : zimgPres img (writeE e r c (markVal low img r c)) y.1 :=
            markList_pres _ (zimgPres img) (zimgPres_refl img)
              (fun _ _ _ => zimgPres_trans img)
              (fun e' r' c' x' hx' => ih e' r' c' (level + 1) x' hx') _ _ _ _ hL
          intro p q hpq
          have hne : ¬ (p = r ∧ q = c) := by
            rintro ⟨rfl, rfl⟩
            exact h2 hpq
          have hw : writeE e r c (markVal low img r c) p q = e p q := writeE_other _ _ _ _ _ _ hne
          have hy' : y.1 p q = e p q := by rw [hy p q hpq, hw]
          rw [← h']
          by_cases hd : y.2 = true ∧ 0 < level ∧ 0 < thin ∧ level % thin ≠ 0
          · rw [if_pos hd]
            show writeE y.1 r c 255 p q = e p q
            rw [writeE_other _ _ _ _ _ _ hne, hy']
          · rw [if_neg hd]
            exact hy'

lemma markConnected_visitResult (low : ℚ) (thin : ℕ) (img : Grid)
    (fuel : ℕ) (e : EdgeMap) (r c : ℤ) (level : ℕ) (x : EdgeMap × Bool)
    (h : markConnected low thin img fuel e r c level = some x) :
    x.1 r c ≠ 0 ∨ (img r c = 0 ∧ x.1 = e) := by
  cases fuel with
  | zero =>
    rw [markConnected] at h
    exact absurd h (by simp)
  | succ f =>
    by_cases h1 : e r c ≠ 0
    · rw [markConnected_visited low thin img f e r c level h1] at h
      injection h with h'
      left
      rw [← h']
      exact h1
    · have hec : e r c = 0 := by by_contra hcon; exact h1 hcon
      by_cases h2 : img r c = 0
      · rw [markConnected_zeroStrength low thin img f e r c level hec h2] at h
        injection h with h'
        right
        rw [← h']
        exact ⟨h2, rfl⟩
      · rw [markConnected_succ_eq low thin img f e r c level hec h2] at h
        cases hL : markList (fun e' r' c' => markConnected low thin img f e' r' c' (level + 1))
            (writeE e r c (markVal low img r c)) false
            (neighborOffsets.map (fun d => (r + d.1, c + d.2))) with
        | none => rw [hL] at h; exact absurd h (by simp)
        | some y =>
          rw [hL] at h
          injection h with h'
          left
          have hy : untouched (writeE e r c (markVal low img r c)) y.1 :=
            markList_pres _ untouched untouched_refl (fun _ _ _ => untouched_trans)
              (fun e' r' c' x' hx' => markConnected_pres low thin img f e' r' c' (level + 1) x' hx')
              _ _ _ _ hL
          have hyrc : y.1 r c = markVal low img r c := by
            rw [hy r c (by rw [writeE_self]; exact markVal_ne_zero low img r c), writeE_self]
          rw [← h']
          by_cases hd : y.2 = true ∧ 0 < level ∧ 0 < thin ∧ level % thin ≠ 0
          · rw [if_pos hd]
            show writeE y.1 r c 255 r c ≠ 0
            rw [writeE_self]
            simp
          · rw [if_neg hd]
            show y.1 r c ≠ 0
            rw [hyrc]
            exact markVal_ne_zero low img r c

lemma markList_visits (step : EdgeMap → ℤ → ℤ → Option (EdgeMap × Bool)) (img : Grid)
    (hv : ∀ e r c x, step e r c = some x → (x.1 r c ≠ 0 ∨ img r c = 0))
    (hpres : ∀ e r c x, step e r c = some x → untouched e x.1) :
    ∀ l e acc x, markList step e acc l = some x →
      ∀ p ∈ l, img p.1 p.2 ≠ 0 → x.1 p.1 p.2 ≠ 0 := by
  intro l
  induction l with
  | nil =>
    intro e acc x h p hp
    exact absurd hp (List.not_mem_nil p)
  | cons q ps ih =>
    intro e acc x h p hp himg
    rw [markList] at h
    cases hs : step e q.1 q.2 with
    | none => rw [hs] at h; exact absurd h (by simp)
    | some y =>
      rw [hs] at h
      rcases List.mem_cons.mp hp with rfl | hmem
      · have h1 : y.1 p.1 p.2 ≠ 0 := by
          rcases hv _ _ _ _ hs with h' | h'
          · exact h'
          · exact absurd h' himg
        have h2 : untouched y.1 x.1 :=
          markList_pres step untouched untouched_refl (fun _ _ _ => untouched_trans)
            hpres _ _ _ _ h
        rw [h2 p.1 p.2 h1]
        exact h1
      · exact ih _ _ _ h p hmem himg

lemma markList_closure (step : EdgeMap → ℤ → ℤ → Option (EdgeMap × Bool)) (img : Grid)
    (hpres : ∀ e r c x, step e r c = some x → untouched e x.1)
    (hcl : ∀ e r c x, step e r c = some x → ∀ p q : ℤ, e p q = 0 → x.1 p q ≠ 0 →
      ∀ d ∈ neighborOffsets, img (p + d.1) (q + d.2) ≠ 0 → x.1 (p + d.1) (q + d.2) ≠ 0) :
    ∀ l e acc x, markList step e acc l = some x → ∀ p q : ℤ, e p q = 0 → x.1 p q ≠ 0 →
      ∀ d ∈ neighborOffsets, img (p + d.1) (q + d.2) ≠ 0 → x.1 (p + d.1) (q + d.2) ≠ 0 := by
  intro l
  induction l with
  | nil =>
    intro e acc x h p q h0 hne d hd himg
    rw [markList] at h
    injection h with h'
    rw [← h'] at hne
    exact absurd h0 hne
  | cons w ws ih =>
    intro e acc x h p q h0 hne d hd himg
    rw [markList] at h
    cases hs : step e w.1 w.2 with
    | none => rw [hs] at h; exact absurd h (by simp)
    | some y =>
      rw [hs] at h
      by_cases hy0 : y.1 p q = 0
      · exact ih _ _ _ h p q hy0 hne d hd himg
      · have hcly := hcl _ _ _ _ hs p q h0 hy0 d hd himg
        have hrest : untouched y.1 x.1 :=
          markList_pres step untouched untouched_refl (fun _ _ _ => untouched_trans)
            hpres _ _ _ _ h
        rw [hrest _ _ hcly]
        exact hcly

lemma markConnected_closure (low : ℚ) (thin : ℕ) (img : Grid) :
    ∀ fuel e r c level x, markConnected low thin img fuel e r c level = some x →
      ∀ p q : ℤ, e p q = 0 → x.1 p q ≠ 0 →
      ∀ d ∈ neighborOffsets, img (p + d.1) (q + d.2) ≠ 0 → x.1 (p + d.1) (q + d.2) ≠ 0 := by
  intro fuel
  induction fuel with
  | zero =>
    intro e r c level x h
    rw [markConnected] at h
    exact absurd h (by simp)
  | succ f ih =>
    intro e r c level x h p q h0 hne d hd himg
    by_cases h1 : e r c ≠ 0
    · rw [markConnected_visited low thin img f e r c level h1] at h
      injection h with h'
      rw [← h'] at hne
      exact absurd h0 hne
    · have hec : e r c = 0 := by by_contra hcon; exact h1 hcon
      by_cases h2 : img r c = 0
      · rw [markConnected_zeroStrength low thin img f e r c level hec h2] at h
        injection h with h'
        rw [← h'] at hne
        exact absurd h0 hne
      · rw [markConnected_succ_eq low thin img f e r c level hec h2] at h
        cases hL : markList (fun e' r' c' => markConnected low thin img f e' r' c' (level + 1))
            (writeE e r c (markVal low img r c)) false
            (neighborOffsets.map (fun d => (r + d.1, c + d.2))) with
        | none => rw [hL] at h; exact absurd h (by simp)
        | some y =>
          rw [hL] at h
          injection h with h'
          have hyuntouched : untouched (writeE e r c (markVal low img r c)) y.1 :=
            markList_pres _ untouched untouched_refl (fun _ _ _ => untouched_trans)
              (fun e' r' c' x' hx' => markConnected_pres low thin img f e' r' c' (level + 1) x' hx')
              _ _ _ _ hL
          have hyrc : y.1 r c = markVal low img r c := by
            rw [hyuntouched r c (by rw [writeE_self]; exact markVal_ne_zero low img r c), writeE_self]
          have hxy : ∀ a b : ℤ, (x.1 a b ≠ 0 ↔ y.1 a b ≠ 0) := by
            intro a b
            rw [← h']
            by_cases hdem : y.2 = true ∧ 0 < level ∧ 0 < thin ∧ level % thin ≠ 0
            · rw [if_pos hdem]
              by_cases hab : a = r ∧ b = c
              · obtain ⟨rfl, rfl⟩ := hab
                show writeE y.1 a b 255 a b ≠ 0 ↔ _
                rw [writeE_self, hyrc]
                constructor
                · intro _
                  exact markVal_ne_zero low img a b
                · intro _
                  simp
              · show writeE y.1 r c 255 a b ≠ 0 ↔ _
                rw [writeE_other _ _ _ _ _ _ hab]
            · rw [if_neg hdem]
          rw [hxy]
          by_cases hpq : p = r ∧ q = c
      -- the newly marked pixel is (r,c) itself: its neighbors were traversed
          · obtain ⟨rfl, rfl⟩ := hpq
            have hmem : (p + d.1, q + d.2) ∈
                neighborOffsets.map (fun d => (p + d.1, q + d.2)) :=
              List.mem_map.mpr ⟨d, hd, rfl⟩
            exact markList_visits _ img
              (fun e' r' c' x' hx' => by
                rcases markConnected_visitResult low thin img f e' r' c' (level + 1) x' hx' with h' | h'
                · exact Or.inl h'
                · exact Or.inr h'.1)
              (fun e' r' c' x' hx' => markConnected_pres low thin img f e' r' c' (level + 1) x' hx')
              _ _ _ _ hL (p + d.1, q + d.2) hmem himg
      -- otherwise the pixel was newly marked inside the neighbor traversals
          · have h0' : writeE e r c (markVal low img r c) p q = 0 := by
              rw [writeE_other _ _ _ _ _ _ hpq]
              exact h0
            have hne' : y.1 p q ≠ 0 := (hxy p q).mp hne
            exact markList_closure _ img
              (fun e' r' c' x' hx' => markConnected_pres low thin img f e' r' c' (level + 1) x' hx')
              (fun e' r' c' x' hx' => ih e' r' c' (level + 1) x' hx')
              _ _ _ _ hL p q h0' hne' d hd himg

lemma markList_some_aux (img : Grid) (S : Finset (ℤ × ℤ)) (f : ℕ)
    (step : EdgeMap → ℤ → ℤ → Option (EdgeMap × Bool))
    (hpres : ∀ e r c x, step e r c = some x → untouched e x.1)
    (hstep : ∀ e r c, (img r c ≠ 0 → (r, c) ∈ S) →
      (S.filter (fun p => e p.1 p.2 = 0)).card < f → (step e r c).isSome) :
    ∀ l, (∀ p ∈ l, img p.1 p.2 ≠ 0 → p ∈ S) →
      ∀ e acc, (S.filter (fun p => e p.1 p.2 = 0)).card < f →
        (markList step e acc l).isSome := by
  intro l
  induction l with
  | nil =>
    intro _ e acc _
    rw [markList]
    rfl
  | cons q ps ih =>
    intro hl e acc hcard
    rw [markList]
    have hq := hstep e q.1 q.2 (fun h => hl q (List.mem_cons_self q ps) h) hcard
    cases hs : step e q.1 q.2 with
    | none => rw [hs] at hq; exact absurd hq (by simp)
    | some y =>
      have hcard' : (S.filter (fun p => y.1 p.1 p.2 = 0)).card < f := by
        refine lt_of_le_of_lt (Finset.card_le_card ?_) hcard
        intro p hp
        rw [Finset.mem_filter] at hp ⊢
        refine ⟨hp.1, ?_⟩
        by_contra h0
        have := hpres _ _ _ _ hs p.1 p.2 h0
        rw [this] at hp
        exact h0 hp.2
      exact ih (fun p hp h => hl p (List.mem_cons_of_mem q hp) h) y.1 (acc || y.2) hcard'

lemma markConnected_some (low : ℚ) (thin : ℕ) (img : Grid) (S : Finset (ℤ × ℤ))
    (hcl : ∀ p ∈ S, ∀ d ∈ neighborOffsets,
      img (p.1 + d.1) (p.2 + d.2) ≠ 0 → (p.1 + d.1, p.2 + d.2) ∈ S) :
    ∀ fuel e r c level, (img r c ≠ 0 → (r, c) ∈ S) →
      (S.filter (fun p => e p.1 p.2 = 0)).card < fuel →
      (markConnected low thin img fuel e r c level).isSome := by
  intro fuel
  induction fuel with
  | zero =>
    intro e r c level _ hcard
    exact absurd hcard (Nat.not_lt_zero _)
  | succ f ih =>
    intro e r c level hin hcard
    by_cases h1 : e r c ≠ 0
    · rw [markConnected_visited low thin img f e r c level h1]
      rfl
    · have hec : e r c = 0 := by by_contra hcon; exact h1 hcon
      by_cases h2 : img r c = 0
      · rw [markConnected_zeroStrength low thin img f e r c level hec h2]
        rfl
      · rw [markConnected_succ_eq low thin img f e r c level hec h2]
        have hrcS : (r, c) ∈ S := hin h2
        have hmem : (r, c) ∈ S.filter (fun p => e p.1 p.2 = 0) :=
          Finset.mem_filter.mpr ⟨hrcS, hec⟩
        have hcard1 : (S.filter
            (fun p => writeE e r c (markVal low img r c) p.1 p.2 = 0)).card < f := by
          have hsub : S.filter (fun p => writeE e r c (markVal low img r c) p.1 p.2 = 0) ⊆
              (S.filter (fun p => e p.1 p.2 = 0)).erase (r, c) := by
            intro p hp
            rw [Finset.mem_filter] at hp
            rw [Finset.mem_erase]
            have hne : p ≠ (r, c) := by
              intro hpe
              rw [hpe] at hp
              have : writeE e r c (markVal low img r c) r c = 0 := hp.2
              rw [writeE_self] at this
              exact markVal_ne_zero low img r c this
            refine ⟨hne, Finset.mem_filter.mpr ⟨hp.1, ?_⟩⟩
            have hne' : ¬ (p.1 = r ∧ p.2 = c) := by
              intro hc
              exact hne (Prod.ext hc.1 hc.2)
            rw [← writeE_other e r c (markVal low img r c) p.1 p.2 hne']
            exact hp.2
          have h3 := Finset.card_le_card hsub
          rw [Finset.card_erase_of_mem hmem] at h3
          have h4 : 0 < (S.filter (fun p => e p.1 p.2 = 0)).card :=
            Finset.card_pos.mpr ⟨(r, c), hmem⟩
          omega
        have hms := markList_some_aux img S f
          (fun e' r' c' => markConnected low thin img f e' r' c' (level + 1))
          (fun e' r' c' x' hx' => markConnected_pres low thin img f e' r' c' (level + 1) x' hx')
          (fun e' r' c' hin' hcard' => ih e' r' c' (level + 1) hin' hcard')
          (neighborOffsets.map (fun d => (r + d.1, c + d.2)))
          (by
            intro p hp himg
            obtain ⟨d, hd, rfl⟩ := List.mem_map.mp hp
            exact hcl (r, c) hrcS d hd himg)
          (writeE e r c (markVal low img r c)) false hcard1
        cases hL : markList (fun e' r' c' => markConnected low thin img f e' r' c' (level + 1))
            (writeE e r c (markVal low img r c)) false
            (neighborOffsets.map (fun d => (r + d.1, c + d.2))) with
        | none => rw [hL] at hms; exact absurd hms (by simp)
        | some y => rfl

lemma seedScan_pres (low high : ℚ) (thin outline rows cols : ℕ) (img : Grid) (fuel : ℕ)
    (P : EdgeMap → EdgeMap → Prop)
    (hrefl : ∀ e, P e e)
    (htrans : ∀ a b c, P a b → P b c → P a c)
    (hstep : ∀ e r c level x, markConnected low thin img fuel e r c level = some x → P e x.1) :
    ∀ l e x, seedScan low high thin outline rows cols img fuel e l = some x → P e x := by
  intro l
  induction l with
  | nil =>
    intro e x h
    rw [seedScan] at h
    injection h with h'
    rw [← h']
    exact hrefl e
  | cons p ps ih =>
    intro e x h
    rw [seedScan] at h
    by_cases hb : isEdge outline rows cols p.1 p.2 = true
    · rw [if_pos hb] at h
      exact ih _ _ h
    · rw [if_neg hb] at h
      by_cases hh : high < img p.1 p.2
      · rw [if_pos hh] at h
        cases hm : markConnected low thin img fuel e p.1 p.2 0 with
        | none => rw [hm] at h; exact absurd h (by simp)
        | some y =>
          rw [hm] at h
          exact htrans _ _ _ (hstep _ _ _ _ _ hm) (ih _ _ h)
      · rw [if_neg hh] at h
        exact ih _ _ h

lemma seedScan_some (low high : ℚ) (thin outline rows cols : ℕ) (img : Grid) (fuel : ℕ)
    (S : Finset (ℤ × ℤ))
    (hcl : ∀ p ∈ S, ∀ d ∈ neighborOffsets,
      img (p.1 + d.1) (p.2 + d.2) ≠ 0 → (p.1 + d.1, p.2 + d.2) ∈ S)
    (hsub : ∀ r c : ℤ, img r c ≠ 0 → (r, c) ∈ S) :
    ∀ l e, (S.filter (fun p => e p.1 p.2 = 0)).card < fuel →
      (seedScan low high thin outline rows cols img fuel e l).isSome := by
  intro l
  induction l with
  | nil =>
    intro e _
    rw [seedScan]
    rfl
  | cons p ps ih =>
    intro e hcard
    rw [seedScan]
    by_cases hb : isEdge outline rows cols p.1 p.2 = true
    · rw [if_pos hb]
      exact ih e hcard
    · rw [if_neg hb]
      by_cases hh : high < img p.1 p.2
      · rw [if_pos hh]
        have hsome := markConnected_some low thin img S hcl fuel e p.1 p.2 0
          (fun h => hsub p.1 p.2 h) hcard
        cases hm : markConnected low thin img fuel e p.1 p.2 0 with
        | none => rw [hm] at hsome; exact absurd hsome (by simp)
        | some y =>
          have hcard' : (S.filter (fun q => y.1 q.1 q.2 = 0)).card < fuel := by
            refine lt_of_le_of_lt (Finset.card_le_card ?_) hcard
            intro q hq
            rw [Finset.mem_filter] at hq ⊢
            refine ⟨hq.1, ?_⟩
            by_contra h0
            have := markConnected_pres low thin img fuel e p.1 p.2 0 y hm q.1 q.2 h0
            rw [this] at hq
            exact h0 hq.2
          exact ih y.1 hcard'
      · rw [if_neg hh]
        exact ih e hcard

lemma seedScan_seeds (low high : ℚ) (thin outline rows cols : ℕ) (img : Grid) (fuel : ℕ) :
    ∀ l e x, seedScan low high thin outline rows cols img fuel e l = some x →
      ∀ p ∈ l, isEdge outline rows cols p.1 p.2 = false → high < img p.1 p.2 →
        img p.1 p.2 ≠ 0 → x p.1 p.2 ≠ 0 := by
  intro l
  induction l with
  | nil =>
    intro e x h p hp
    exact absurd hp (List.not_mem_nil p)
  | cons q ps ih =>
    intro e x h p hp hpb hph himg
    rw [seedScan] at h
    rcases List.mem_cons.mp hp with rfl | hmem
    · rw [if_neg (by rw [hpb]; exact Bool.false_ne_true)] at h
      rw [if_pos hph] at h
      cases hm : markConnected low thin img fuel e p.1 p.2 0 with
      | none => rw [hm] at h; exact absurd h (by simp)
      | some y =>
        rw [hm] at h
        have hy : y.1 p.1 p.2 ≠ 0 := by
          rcases markConnected_visitResult low thin img fuel e p.1 p.2 0 y hm with h' | h'
          · exact h'
          · exact absurd h'.1 himg
        have hrest : untouched y.1 x :=
          seedScan_pres low high thin outline rows cols img fuel untouched untouched_refl
            (fun _ _ _ => untouched_trans)
            (fun e' r' c' lv' x' hx' => markConnected_pres low thin img fuel e' r' c' lv' x' hx')
            _ _ _ h
        rw [hrest _ _ hy]
        exact hy
    · by_cases hb : isEdge outline rows cols q.1 q.2 = true
      · rw [if_pos hb] at h
        exact ih _ _ h p hmem hpb hph himg
      · rw [if_neg hb] at h
        by_cases hh : high < img q.1 q.2
        · rw [if_pos hh] at h
          cases hm : markConnected low thin img fuel e q.1 q.2 0 with
          | none => rw [hm] at h; exact absurd h (by simp)
          | some y =>
            rw [hm] at h
            exact ih _ _ h p hmem hpb hph himg
        · rw [if_neg hh] at h
          exact ih _ _ h p hmem hpb hph himg

lemma seedScan_closure (low high : ℚ) (thin outline rows cols : ℕ) (img : Grid) (fuel : ℕ) :
    ∀ l e x, seedScan low high thin outline rows cols img fuel e l = some x →
      ∀ p q : ℤ, e p q = 0 → x p q ≠ 0 →
      ∀ d ∈ neighborOffsets, img (p + d.1) (q + d.2) ≠ 0 → x (p + d.1) (q + d.2) ≠ 0 := by
  intro l
  induction l with
  | nil =>
    intro e x h p q h0 hne d hd himg
    rw [seedScan] at h
    injection h with h'
    rw [← h'] at hne
    exact absurd h0 hne
  | cons w ws ih =>
    intro e x h p q h0 hne d hd himg
    rw [seedScan] at h
    by_cases hb : isEdge outline rows cols w.1 w.2 = true
    · rw [if_pos hb] at h
      exact ih _ _ h p q h0 hne d hd himg
    · rw [if_neg hb] at h
      by_cases hh : high < img w.1 w.2
      · rw [if_pos hh] at h
        cases hm : markConnected low thin img fuel e w.1 w.2 0 with
        | none => rw [hm] at h; exact absurd h (by simp)
        | some y =>
          rw [hm] at h
          by_cases hy0 : y.1 p q = 0
          · exact ih _ _ h p q hy0 hne d hd himg
          · have hcly := markConnected_closure low thin img fuel e w.1 w.2 0 y hm
              p q h0 hy0 d hd himg
            have hrest : untouched y.1 x :=
              seedScan_pres low high thin outline rows cols img fuel untouched untouched_refl
                (fun _ _ _ => untouched_trans)
                (fun e' r' c' lv' x' hx' => markConnected_pres low thin img fuel e' r' c' lv' x' hx')
                _ _ _ h
            rw [hrest _ _ hcly]
            exact hcly
      · rw [if_neg hh] at h
        exact ih _ _ h p q h0 hne d hd himg

lemma freshMarks_refl (low : ℚ) (img : Grid) (e : EdgeMap) : freshMarks low img e e :=
  fun _ _ => Or.inl rfl

lemma freshMarks_trans (low : ℚ) (img : Grid) {a b c : EdgeMap}
    (h1 : freshMarks low img a b) (h2 : freshMarks low img b c) :
    freshMarks low img a c := by
  intro p q
  rcases h2 p q with h2' | ⟨hb0, himg, hc⟩
  · rcases h1 p q with h1' | ⟨ha0, himg, hb⟩
    · left
      rw [h2', h1']
    · right
      exact ⟨ha0, himg, by rw [h2', hb]⟩
  · rcases h1 p q with h1' | ⟨ha0, himg', hb⟩
    · right
      exact ⟨by rw [← h1']; exact hb0, himg, hc⟩
    · exact absurd hb0 (by rw [hb]; exact markVal_ne_zero low img p q)

lemma markConnected_thin0 (low : ℚ) (img : Grid) :
    ∀ fuel e r c level x, markConnected low 0 img fuel e r c level = some x →
      freshMarks low img e x.1 := by
  intro fuel
  induction fuel with
  | zero =>
    intro e r c level x h
    rw [markConnected] at h
    exact absurd h (by simp)
  | succ f ih =>
    intro e r c level x h
    by_cases h1 : e r c ≠ 0
    · rw [markConnected_visited low 0 img f e r c level h1] at h
      injection h with h'
      rw [← h']
      exact freshMarks_refl low img e
    · have hec : e r c = 0 := by by_contra hcon; exact h1 hcon
      by_cases h2 : img r c = 0
      · rw [markConnected_zeroStrength low 0 img f e r c level hec h2] at h
        injection h with h'
        rw [← h']
        exact freshMarks_refl low img e
      · rw [markConnected_succ_eq low 0 img f e r c level hec h2] at h
        cases hL : markList (fun e' r' c' => markConnected low 0 img f e' r' c' (level + 1))
            (writeE e r c (markVal low img r c)) false
            (neighborOffsets.map (fun d => (r + d.1, c + d.2))) with
        | none => rw [hL] at h; exact absurd h (by simp)
        | some y =>
          rw [hL] at h
          injection h with h'
          have hstep1 : freshMarks low img e (writeE e r c (markVal low img r c)) := by
            intro p q
            by_cases hpq : p = r ∧ q = c
            · obtain ⟨rfl, rfl⟩ := hpq
              right
              exact ⟨hec, h2, writeE_self e p q (markVal low img p q)⟩
            · left
              exact writeE_other e r c (markVal low img r c) p q hpq
          have hstep2 : freshMarks low img (writeE e r c (markVal low img r c)) y.1 :=
            markList_pres _ (freshMarks low img) (freshMarks_refl low img)
              (fun _ _ _ => freshMarks_trans low img)
              (fun e' r' c' x' hx' => ih e' r' c' (level + 1) x' hx') _ _ _ _ hL
          have hne : ¬ (y.2 = true ∧ 0 < level ∧ 0 < (0 : ℕ) ∧ level % 0 ≠ 0) :=
            fun hcon => absurd hcon.2.2.1 (lt_irrefl 0)
          rw [← h', if_neg hne]
          exact freshMarks_trans low img hstep1 hstep2

lemma seedScan_thin0 (low high : ℚ) (outline rows cols : ℕ) (img : Grid) (fuel : ℕ) :
    ∀ l e x, seedScan low high 0 outline rows cols img fuel e l = some x →
      freshMarks low img e x :=
  seedScan_pres low high 0 outline rows cols img fuel (freshMarks low img)
    (freshMarks_refl low img) (fun _ _ _ => freshMarks_trans low img)
    (fun e' r' c' lv' x' hx' => markConnected_thin0 low img fuel e' r' c' lv' x' hx')

lemma markList_subset (img : Grid) (M : ℤ → ℤ → Prop)
    (step : EdgeMap → ℤ → ℤ → Option (EdgeMap × Bool))
    (hstep : ∀ e r c x, step e r c = some x → (∀ a b : ℤ, e a b ≠ 0 → M a b) →
      (img r c ≠ 0 → M r c) → ∀ a b : ℤ, x.1 a b ≠ 0 → M a b) :
    ∀ l, (∀ p ∈ l, img p.1 p.2 ≠ 0 → M p.1 p.2) →
      ∀ e acc x, markList step e acc l = some x → (∀ a b : ℤ, e a b ≠ 0 → M a b) →
        ∀ a b : ℤ, x.1 a b ≠ 0 → M a b := by
  intro l
  induction l with
  | nil =>
    intro _ e acc x h hinv a b hab
    rw [markList] at h
    injection h with h'
    rw [← h'] at hab
    exact hinv a b hab
  | cons q ps ih =>
    intro hl e acc x h hinv a b hab
    rw [markList] at h
    cases hs : step e q.1 q.2 with
    | none => rw [hs] at h; exact absurd h (by simp)
    | some y =>
      rw [hs] at h
      have hyinv : ∀ a b : ℤ, y.1 a b ≠ 0 → M a b :=
        hstep _ _ _ _ hs hinv (fun himg => hl q (List.mem_cons_self q ps) himg)
      exact ih (fun p hp himg => hl p (List.mem_cons_of_mem q hp) himg) _ _ _ h hyinv a b hab

lemma markConnected_subset (low : ℚ) (thin : ℕ) (img : Grid) (M : ℤ → ℤ → Prop)
    (hMcl : ∀ p q : ℤ, M p q → ∀ d ∈ neighborOffsets,
      img (p + d.1) (q + d.2) ≠ 0 → M (p + d.1) (q + d.2)) :
    ∀ fuel e r c level x, markConnected low thin img fuel e r c level = some x →
      (∀ a b : ℤ, e a b ≠ 0 → M a b) → (img r c ≠ 0 → M r c) →
      ∀ a b : ℤ, x.1 a b ≠ 0 → M a b := by
  intro fuel
  induction fuel with
  | zero =>
    intro e r c level x h
    rw [markConnected] at h
    exact absurd h (by simp)
  | succ f ih =>
    intro e r c level x h hinv hseed a b hab
    by_cases h1 : e r c ≠ 0
    · rw [markConnected_visited low thin img f e r c level h1] at h
      injection h with h'
      rw [← h'] at hab
      exact hinv a b hab
    · have hec : e r c = 0 := by by_contra hcon; exact h1 hcon
      by_cases h2 : img r c = 0
      · rw [markConnected_zeroStrength low thin img f e r c level hec h2] at h
        injection h with h'
        rw [← h'] at hab
        exact hinv a b hab
      · rw [markConnected_succ_eq low thin img f e r c level hec h2] at h
        cases hL : markList (fun e' r' c' => markConnected low thin img f e' r' c' (level + 1))
            (writeE e r c (markVal low img r c)) false
            (neighborOffsets.map (fun d => (r + d.1, c + d.2))) with
        | none => rw [hL] at h; exact absurd h (by simp)
        | some y =>
          rw [hL] at h
          injection h with h'
          have hMrc : M r c := hseed h2
          have he1inv : ∀ a b : ℤ, writeE e r c (markVal low img r c) a b ≠ 0 → M a b := by
            intro a b hab'
            by_cases hpq : a = r ∧ b = c
            · obtain ⟨rfl, rfl⟩ := hpq
              exact hMrc
            · rw [writeE_other e r c (markVal low img r c) a b hpq] at hab'
              exact hinv a b hab'
          have hyinv : ∀ a b : ℤ, y.1 a b ≠ 0 → M a b :=
            markList_subset img M _
              (fun e' r' c' x' hx' hinv' hseed' =>
                ih e' r' c' (level + 1) x' hx' hinv' hseed')
              _
              (by
                intro p hp himg
                obtain ⟨d, hd, rfl⟩ := List.mem_map.mp hp
                exact hMcl r c hMrc d hd himg)
              _ _ _ hL he1inv
          rw [← h'] at hab
          by_cases hdem : y.2 = true ∧ 0 < level ∧ 0 < thin ∧ level % thin ≠ 0
          · rw [if_pos hdem] at hab
            by_cases hpq : a = r ∧ b = c
            · obtain ⟨rfl, rfl⟩ := hpq
              exact hMrc
            · have hab2 : writeE y.1 r c 255 a b ≠ 0 := hab
              rw [writeE_other y.1 r c 255 a b hpq] at hab2
              exact hyinv a b hab2
          · rw [if_neg hdem] at hab
            exact hyinv a b hab

lemma seedScan_subset (low high : ℚ) (thin outline rows cols : ℕ) (img : Grid)
    (fuel : ℕ) (M : ℤ → ℤ → Prop)
    (hMcl : ∀ p q : ℤ, M p q → ∀ d ∈ neighborOffsets,
      img (p + d.1) (q + d.2) ≠ 0 → M (p + d.1) (q + d.2)) :
    ∀ l, (∀ p ∈ l, isEdge outline rows cols p.1 p.2 = false → high < img p.1 p.2 →
        img p.1 p.2 ≠ 0 → M p.1 p.2) →
      ∀ e x, seedScan low high thin outline rows cols img fuel e l = some x →
        (∀ a b : ℤ, e a b ≠ 0 → M a b) → ∀ a b : ℤ, x a b ≠ 0 → M a b := by
  intro l
  induction l with
  | nil =>
    intro _ e x h hinv a b hab
    rw [seedScan] at h
    injection h with h'
    rw [← h'] at hab
    exact hinv a b hab
  | cons q ps ih =>
    intro hl e x h hinv a b hab
    rw [seedScan] at h
    by_cases hb : isEdge outline rows cols q.1 q.2 = true
    · rw [if_pos hb] at h
      exact ih (fun p hp => hl p (List.mem_cons_of_mem q hp)) _ _ h hinv a b hab
    · rw [if_neg hb] at h
      by_cases hh : high < img q.1 q.2
      · rw [if_pos hh] at h
        cases hm : markConnected low thin img fuel e q.1 q.2 0 with
        | none => rw [hm] at h; exact absurd h (by simp)
        | some y =>
          rw [hm] at h
          have hbf : isEdge outline rows cols q.1 q.2 = false :=
            Bool.not_eq_true _ ▸ Bool.eq_false_iff.mpr hb
          have hyinv : ∀ a b : ℤ, y.1 a b ≠ 0 → M a b :=
            markConnected_subset low thin img M hMcl fuel e q.1 q.2 0 y hm hinv
              (fun himg => hl q (List.mem_cons_self q ps) hbf hh himg)
          exact ih (fun p hp => hl p (List.mem_cons_of_mem q hp)) _ _ h hyinv a b hab
      · rw [if_neg hh] at h
        exact ih (fun p hp => hl p (List.mem_cons_of_mem q hp)) _ _ h hinv a b hab

/-- C2: the claim as stated fails on the code.  Tracing `c7img` (low_thresh 0,
thinFactor 2): inside the traversal the pixel (1,2) is visited at level 1 with
an unvisited buffer except for (1,1); its strength 5 exceeds low_thresh so its
first mark is 1, its neighbor recursions report a mark (the OR is `true`, so
NOT every neighbor returned "no new territory"), and level = 1 > 0,
thinFactor = 2 > 0, 1 % 2 ≠ 0 — the claim then says the pixel must keep its
mark 1, yet the code re-marks it 255: demotion fires when SOME neighbor
produced a mark, not when none did. -/
theorem C2_counterexample :
    writeE (fun _ _ => 0) 1 1 1 1 2 = 0 ∧
    c7img 1 2 ≠ 0 ∧
    (0 : ℚ) < c7img 1 2 ∧
    Option.map Prod.snd (markList
      (fun e' r' c' => markConnected 0 2 c7img 15 e' r' c' 2)
      (writeE (writeE (fun _ _ => 0) 1 1 1) 1 2 1) false
      (neighborOffsets.map (fun d => (1 + d.1, 2 + d.2)))) = some true ∧
    ((0 : ℕ) < 1 ∧ (0 : ℕ) < 2 ∧ 1 % 2 ≠ 0) ∧
    Option.map (fun x => x.1 1 2)
      (markConnected 0 2 c7img 16 (writeE (fun _ _ => 0) 1 1 1) 1 2 1) = some 255 := by
  with_unfolding_all decide

/-- C2 (amended): after the pixel (r,c) passes the visit and strength guards
and its eight neighbor recursions finish with OR-result `y.2`, the call
reports a mark, and the pixel's final value is the demoted 255 exactly when
`y.2` is true (AT LEAST ONE neighbor recursion produced a mark) and level > 0
and thinFactor > 0 and level mod thinFactor ≠ 0 — otherwise it keeps its
first-visit mark; and with thinFactor = 0 no pixel is ever demoted after its
initial mark: the whole traversal changes a cell only by writing its
first-visit mark. -/
theorem C2_amended_markConnected (low : ℚ) (thin : ℕ) (img : Grid) (e : EdgeMap)
    (r c : ℤ) (level fuel : ℕ) (y x : EdgeMap × Bool)
    (h0 : e r c = 0) (h1 : img r c ≠ 0)
    (hL : markList (fun e' r' c' => markConnected low thin img fuel e' r' c' (level + 1))
      (writeE e r c (markVal low img r c)) false
      (neighborOffsets.map (fun d => (r + d.1, c + d.2))) = some y)
    (hM : markConnected low thin img (fuel + 1) e r c level = some x) :
    x.2 = true ∧
    x.1 r c = (if y.2 = true ∧ 0 < level ∧ 0 < thin ∧ level % thin ≠ 0 then 255
      else markVal low img r c) ∧
    (thin = 0 → ∀ p q : ℤ, x.1 p q = e p q ∨
      (e p q = 0 ∧ img p q ≠ 0 ∧ x.1 p q = markVal low img p q)) := by
  have hM' := hM
  rw [markConnected_succ_eq low thin img fuel e r c level h0 h1, hL] at hM'
  injection hM' with h'
  have hyrc : y.1 r c = markVal low img r c := by
    have hy : untouched (writeE e r c (markVal low img r c)) y.1 :=
      markList_pres _ untouched untouched_refl (fun _ _ _ => untouched_trans)
        (fun e' r' c' x' hx' =>
          markConnected_pres low thin img fuel e' r' c' (level + 1) x' hx') _ _ _ _ hL
    rw [hy r c (by rw [writeE_self]; exact markVal_ne_zero low img r c), writeE_self]
  refine ⟨by rw [← h'], ?_, ?_⟩
  · rw [← h']
    by_cases hdem : y.2 = true ∧ 0 < level ∧ 0 < thin ∧ level % thin ≠ 0
    · rw [if_pos hdem, if_pos hdem]
      show writeE y.1 r c 255 r c = 255
      exact writeE_self y.1 r c 255
    · rw [if_neg hdem, if_neg hdem]
      exact hyrc
  · intro ht
    subst ht
    exact fun p q => markConnected_thin0 low img (fuel + 1) e r c level x hM p q

/-- Witness for C2_amended_markConnected: the pixel (1,2) of `c7img` at level 1
with thinFactor 2; its initial mark is 1 yet its final value is the demoted
255, because a neighbor recursion produced a mark. -/
theorem C2_amended_markConnected_witness :
    writeE (fun _ _ => 0) 1 1 1 1 2 = 0 ∧
    c7img 1 2 ≠ 0 ∧
    Option.map (fun x => x.1 1 2)
      (markConnected 0 2 c7img 16 (writeE (fun _ _ => 0) 1 1 1) 1 2 1) = some 255 := by
  refine ⟨by decide, by with_unfolding_all decide, ?_⟩
  have hsomeM : (markConnected 0 2 c7img 16 (writeE (fun _ _ => 0) 1 1 1) 1 2 1).isSome := by
    with_unfolding_all decide
  have hsomeL : (markList (fun e' r' c' => markConnected 0 2 c7img 15 e' r' c' 2)
      (writeE (writeE (fun _ _ => 0) 1 1 1) 1 2 1) false
      (neighborOffsets.map (fun d => ((1 : ℤ) + d.1, (2 : ℤ) + d.2)))).isSome := by
    with_unfolding_all decide
  cases hM : markConnected 0 2 c7img 16 (writeE (fun _ _ => 0) 1 1 1) 1 2 1 with
  | none => rw [hM] at hsomeM; exact absurd hsomeM (by simp)
  | some x =>
    cases hL : markList (fun e' r' c' => markConnected 0 2 c7img 15 e' r' c' 2)
        (writeE (writeE (fun _ _ => 0) 1 1 1) 1 2 1) false
        (neighborOffsets.map (fun d => ((1 : ℤ) + d.1, (2 : ℤ) + d.2))) with
    | none => rw [hL] at hsomeL; exact absurd hsomeL (by simp)
    | some y =>
      have hLmark : markList (fun e' r' c' => markConnected 0 2 c7img 15 e' r' c' 2)
          (writeE (writeE (fun _ _ => 0) 1 1 1) 1 2 (markVal 0 c7img 1 2)) false
          (neighborOffsets.map (fun d => ((1 : ℤ) + d.1, (2 : ℤ) + d.2))) = some y := by
        have hmv : markVal 0 c7img 1 2 = 1 := by with_unfolding_all decide
        rw [hmv]
        exact hL
      have hcon := C2_amended_markConnected 0 2 c7img (writeE (fun _ _ => 0) 1 1 1)
        1 2 1 15 y x (by decide) (by with_unfolding_all decide) hLmark hM
      have hy2 : y.2 = true := by
        have h1 : Option.map Prod.snd (markList
            (fun e' r' c' => markConnected 0 2 c7img 15 e' r' c' 2)
            (writeE (writeE (fun _ _ => 0) 1 1 1) 1 2 1) false
            (neighborOffsets.map (fun d => ((1 : ℤ) + d.1, (2 : ℤ) + d.2)))) = some true := by
          with_unfolding_all decide
        rw [hL] at h1
        injection h1
      have hx : x.1 1 2 = 255 := by
        rw [hcon.2.1, if_pos ⟨hy2, by decide, by decide, by decide⟩]
      rw [Option.map_some', hx]

/-- C3: the code contradicts the claim (and its own evident intent).  In
`threshold_edges` the line `low_thresh = high_thresh` under
`if not do_hysteresis` assigns a variable local to that function, while
`mark_connected` reads the module-level `low_thresh`, so the collapse never
happens.  On the strength grid `c3img` with module thresholds low = 0,
high = 2 and hysteresis disabled, pixel (1,2) (strength 1, connected to the
seed (1,1) of strength 3) is confirmed at value 1; running with both
thresholds equal to high = 2 leaves it 0. -/
theorem C3_code_bug :
    thresholdEdges 0 2 false 0 1 3 5 c3img 1 2 = 1 ∧
    thresholdEdges 2 2 true 0 1 3 5 c3img 1 2 = 0 := by
  with_unfolding_all decide

lemma mem_cellList (rows cols : ℕ) (p : ℤ × ℤ) :
    p ∈ cellList rows cols ↔
      0 ≤ p.1 ∧ p.1 < (rows : ℤ) ∧ 0 ≤ p.2 ∧ p.2 < (cols : ℤ) := by
  unfold cellList
  rw [List.mem_flatMap]
  constructor
  · rintro ⟨a, ha, hp⟩
    rw [List.mem_range] at ha
    rw [List.mem_map] at hp
    obtain ⟨b, hb, rfl⟩ := hp
    rw [List.mem_range] at hb
    refine ⟨?_, ?_, ?_, ?_⟩
    · show (0 : ℤ) ≤ (a : ℤ)
      omega
    · show (a : ℤ) < (rows : ℤ)
      omega
    · show (0 : ℤ) ≤ (b : ℤ)
      omega
    · show (b : ℤ) < (cols : ℤ)
      omega
  · rintro ⟨h1, h2, h3, h4⟩
    refine ⟨p.1.toNat, ?_, ?_⟩
    · rw [List.mem_range]
      omega
    · rw [List.mem_map]
      refine ⟨p.2.toNat, by rw [List.mem_range]; omega, ?_⟩
      rw [Prod.ext_iff]
      constructor
      · show ((p.1.toNat : ℤ)) = p.1
        omega
      · show ((p.2.toNat : ℤ)) = p.2
        omega

lemma cellList_length (rows cols : ℕ) : (cellList rows cols).length = rows * cols := by
  induction rows with
  | zero => rw [Nat.zero_mul]; rfl
  | succ n ih =>
    unfold cellList at ih ⊢
    rw [List.range_succ, List.flatMap_append, List.length_append, ih,
      List.flatMap_cons, List.flatMap_nil, List.append_nil, List.length_map,
      List.length_range]
    ring

lemma seedScan_isSome_of_supp (low high : ℚ) (thin outline rows cols : ℕ) (img : Grid)
    (hsupp : ∀ r c : ℤ, img r c ≠ 0 → 0 ≤ r ∧ r < (rows : ℤ) ∧ 0 ≤ c ∧ c < (cols : ℤ)) :
    (seedScan low high thin outline rows cols img (rows * cols + 2)
      (fun _ _ => 0) (cellList rows cols)).isSome := by
  have hcl : ∀ p ∈ (cellList rows cols).toFinset, ∀ d ∈ neighborOffsets,
      img (p.1 + d.1) (p.2 + d.2) ≠ 0 → (p.1 + d.1, p.2 + d.2) ∈
        (cellList rows cols).toFinset := by
    intro p _ d _ himg
    rw [List.mem_toFinset, mem_cellList]
    exact hsupp _ _ himg
  have hsub : ∀ r c : ℤ, img r c ≠ 0 → (r, c) ∈ (cellList rows cols).toFinset := by
    intro r c himg
    rw [List.mem_toFinset, mem_cellList]
    exact hsupp r c himg
  refine seedScan_some low high thin outline rows cols img (rows * cols + 2)
    ((cellList rows cols).toFinset) hcl hsub (cellList rows cols) (fun _ _ => 0) ?_
  refine lt_of_le_of_lt (Finset.card_filter_le _ _) ?_
  refine lt_of_le_of_lt (List.toFinset_card_le _) ?_
  have h3 := cellList_length rows cols
  omega

/-- C9: the tracer terminates.  A `mark_connected` call succeeds whenever the
fuel (call-depth bound) exceeds the number of still-unvisited markable pixels
of any set `S` that contains the root (when its strength is nonzero) and is
closed under stepping to nonzero-strength 8-neighbors — instantiating `S` with
the 8-connected region of nonzero-strength pixels containing the seed bounds
the recursion depth by that region's size; and for every strength grid
supported inside the `rows × cols` range, `threshold_edges` (run with fuel
`rows*cols + 2`, one more than the grid's pixel count can ever demand)
returns. -/
theorem C9_tracer_terminates :
    (∀ (low : ℚ) (thin : ℕ) (img : Grid) (S : Finset (ℤ × ℤ)) (fuel : ℕ) (e : EdgeMap)
      (r c : ℤ) (level : ℕ),
      (∀ p ∈ S, ∀ d ∈ neighborOffsets, img (p.1 + d.1) (p.2 + d.2) ≠ 0 →
        (p.1 + d.1, p.2 + d.2) ∈ S) →
      (img r c ≠ 0 → (r, c) ∈ S) →
      (S.filter (fun p => e p.1 p.2 = 0)).card < fuel →
      (markConnected low thin img fuel e r c level).isSome) ∧
    (∀ (low high : ℚ) (doHyst : Bool) (thin outline rows cols : ℕ) (img : Grid),
      (∀ r c : ℤ, img r c ≠ 0 → 0 ≤ r ∧ r < (rows : ℤ) ∧ 0 ≤ c ∧ c < (cols : ℤ)) →
      (thresholdEdgesO low high doHyst thin outline rows cols img).isSome) := by
  constructor
  · intro low thin img S fuel e r c level hcl hin hcard
    exact markConnected_some low thin img S hcl fuel e r c level hin hcard
  · intro low high doHyst thin outline rows cols img hsupp
    unfold thresholdEdgesO
    rw [Option.isSome_map']
    exact seedScan_isSome_of_supp low high thin outline rows cols img hsupp

/-- Witness for C9_tracer_terminates: the single-pixel grid `dotImg` with
`S = {(0,0)}` and fuel 2 for the raw traversal, and a 1×1 image for the full
`threshold_edges` run. -/
theorem C9_tracer_terminates_witness :
    (markConnected 0 0 dotImg 2 (fun _ _ => 0) 0 0 0).isSome ∧
    (thresholdEdgesO 0 0 false 0 0 1 1 dotImg).isSome := by
  constructor
  · exact C9_tracer_terminates.1 0 0 dotImg {(0, 0)} 2 (fun _ _ => 0) 0 0 0
      (by with_unfolding_all decide) (by with_unfolding_all decide)
      (by with_unfolding_all decide)
  · refine C9_tracer_terminates.2 0 0 false 0 0 1 1 dotImg ?_
    intro r c h
    unfold dotImg at h
    by_cases hrc : r = 0 ∧ c = 0
    · obtain ⟨rfl, rfl⟩ := hrc
      refine ⟨le_refl 0, by norm_num, le_refl 0, by norm_num⟩
    · rw [if_neg hrc] at h
      exact absurd rfl h

/-- C6: border pixels are always 0 in the final output of `shenCastan`: the
locator assigns them strength 0, the tracer never writes a zero-strength
cell, stripping keeps 0, and normalization maps 0 to 0. -/
theorem C6_border_zero (s : ℚ) (ws outline : ℕ) (low high : ℚ) (doHyst : Bool)
    (thin : ℕ) (img : Grid) (rows cols : ℕ) (r c : ℤ)
    (ho : 1 ≤ outline) (h1 : 0 ≤ r) (h2 : r < (rows : ℤ)) (h3 : 0 ≤ c)
    (h4 : c < (cols : ℤ)) (hb : isEdge outline rows cols r c = true) :
    shenCastan s ws outline low high doHyst thin img rows cols r c = 0 := by
  unfold shenCastan
  rw [if_pos ⟨h1, h2, h3, h4⟩]
  have hzc : locateZc (getISEF s img rows cols)
      (getBLI img (getISEF s img rows cols) rows cols) rows cols outline ws r c = 0 := by
    unfold locateZc
    rw [if_pos ⟨h1, h2, h3, h4⟩, if_pos hb]
  have he : thresholdEdges low high doHyst thin outline rows cols
      (locateZc (getISEF s img rows cols)
        (getBLI img (getISEF s img rows cols) rows cols) rows cols outline ws) r c = 0 := by
    unfold thresholdEdges thresholdEdgesO
    cases hscan : seedScan low high thin outline rows cols
        (locateZc (getISEF s img rows cols)
          (getBLI img (getISEF s img rows cols) rows cols) rows cols outline ws)
        (rows * cols + 2) (fun _ _ => 0) (cellList rows cols) with
    | none => rfl
    | some y =>
      show stripProvisional rows cols y r c = 0
      have hy : y r c = 0 := by
        have hz : zimgPres (locateZc (getISEF s img rows cols)
            (getBLI img (getISEF s img rows cols) rows cols) rows cols outline ws)
            (fun _ _ => 0) y :=
          seedScan_pres low high thin outline rows cols _ (rows * cols + 2)
            (zimgPres _) (zimgPres_refl _) (fun _ _ _ => zimgPres_trans _)
            (fun e' r' c' lv' x' hx' => markConnected_zimg low thin _ (rows * cols + 2)
              e' r' c' lv' x' hx') _ _ _ hscan
        rw [hz r c hzc]
      unfold stripProvisional
      rw [if_neg (by rw [hy]; intro hcon; exact absurd hcon.2.2.2.2 (by norm_num)), hy]
  rw [he]
  rfl

/-- Witness for C6_border_zero: the all-ones 3×3 image with outline 1 at the
border pixel (0,0). -/
theorem C6_border_zero_witness :
    (1 ≤ 1 ∧ isEdge 1 3 3 0 0 = true) ∧
      shenCastan (1/2) 2 1 2 2 false 0 onesGrid 3 3 0 0 = 0 :=
  ⟨⟨le_refl 1, by decide⟩,
    C6_border_zero (1/2) 2 1 2 2 false 0 onesGrid 3 3 0 0 (le_refl 1)
      (by decide) (by decide) (by decide) (by decide) (by decide)⟩

/-- C7: the claim as stated fails on the code.  On the 3×5 chain grid `c7img`
(strengths 4, 5, 4), with low_thresh 0 and thinFactor 2 held fixed, raising
high_thresh from 3 to 9/2 INCREASES the confirmed-edge count from 2 to 3:
with high = 3 the traversal roots at (1,1) and thinning demotes the interior
pixel (1,2) at level 1, while with high = 9/2 the only seed is (1,2) itself,
traversed at level 0 where thinning never fires. -/
theorem C7_counterexample :
    (3 : ℚ) ≤ 9/2 ∧
    countEdges (thresholdEdges 0 3 false 2 1 3 5 c7img) 3 5 = 2 ∧
    countEdges (thresholdEdges 0 (9/2) false 2 1 3 5 c7img) 3 5 = 3 := by
  refine ⟨by norm_num, ?_, ?_⟩ <;> with_unfolding_all decide

/-- C7 (amended): with thinning disabled (thinFactor = 0) and all other
configuration values held fixed, raising high_thresh never increases the
number of confirmed-edge pixels, for every candidate strength grid supported
inside the grid range (as the locator guarantees). -/
theorem C7_amended_monotone (low high1 high2 : ℚ) (dh1 dh2 : Bool)
    (outline rows cols : ℕ) (img : Grid)
    (hsupp : ∀ r c : ℤ, img r c ≠ 0 → 0 ≤ r ∧ r < (rows : ℤ) ∧ 0 ≤ c ∧ c < (cols : ℤ))
    (h12 : high1 ≤ high2) :
    countEdges (thresholdEdges low high2 dh2 0 outline rows cols img) rows cols ≤
      countEdges (thresholdEdges low high1 dh1 0 outline rows cols img) rows cols := by
  have hs1 := seedScan_isSome_of_supp low high1 0 outline rows cols img hsupp
  have hs2 := seedScan_isSome_of_supp low high2 0 outline rows cols img hsupp
  cases hscan1 : seedScan low high1 0 outline rows cols img (rows * cols + 2)
      (fun _ _ => 0) (cellList rows cols) with
  | none => rw [hscan1] at hs1; exact absurd hs1 (by simp)
  | some y1 =>
  cases hscan2 : seedScan low high2 0 outline rows cols img (rows * cols + 2)
      (fun _ _ => 0) (cellList rows cols) with
  | none => rw [hscan2] at hs2; exact absurd hs2 (by simp)
  | some y2 =>
  have hTE1 : thresholdEdges low high1 dh1 0 outline rows cols img =
      stripProvisional rows cols y1 := by
    unfold thresholdEdges thresholdEdgesO
    rw [hscan1]
    rfl
  have hTE2 : thresholdEdges low high2 dh2 0 outline rows cols img =
      stripProvisional rows cols y2 := by
    unfold thresholdEdges thresholdEdgesO
    rw [hscan2]
    rfl
  rw [hTE1, hTE2]
  -- closure of the first run's marked set under nonzero-strength neighbors
  have hM1cl : ∀ p q : ℤ, y1 p q ≠ 0 → ∀ d ∈ neighborOffsets,
      img (p + d.1) (q + d.2) ≠ 0 → y1 (p + d.1) (q + d.2) ≠ 0 := by
    intro p q hpq d hd himg
    exact seedScan_closure low high1 0 outline rows cols img (rows * cols + 2)
      _ _ _ hscan1 p q rfl hpq d hd himg
  -- every seed the second run visits is already marked after the first run
  have hseeds1 : ∀ p ∈ cellList rows cols, isEdge outline rows cols p.1 p.2 = false →
      high1 < img p.1 p.2 → img p.1 p.2 ≠ 0 → y1 p.1 p.2 ≠ 0 := by
    intro p hp hpb hph himg
    exact seedScan_seeds low high1 0 outline rows cols img (rows * cols + 2)
      _ _ _ hscan1 p hp hpb hph himg
  -- every pixel the second run marks is marked by the first run
  have hsub : ∀ a b : ℤ, y2 a b ≠ 0 → y1 a b ≠ 0 := by
    refine seedScan_subset low high2 0 outline rows cols img (rows * cols + 2)
      (fun a b => y1 a b ≠ 0) hM1cl (cellList rows cols) ?_ _ _ hscan2 ?_
    · intro p hp hpb hph himg
      exact hseeds1 p hp hpb (lt_of_le_of_lt h12 hph) himg
    · intro a b hab
      exact absurd rfl hab
  -- with thinFactor = 0 each run only writes first-visit marks
  have hf1 : freshMarks low img (fun _ _ => 0) y1 :=
    seedScan_thin0 low high1 outline rows cols img (rows * cols + 2) _ _ _ hscan1
  have hf2 : freshMarks low img (fun _ _ => 0) y2 :=
    seedScan_thin0 low high2 outline rows cols img (rows * cols + 2) _ _ _ hscan2
  unfold countEdges
  refine Finset.card_le_card ?_
  intro p hp
  rw [Finset.mem_filter] at hp ⊢
  obtain ⟨hmem, hpos⟩ := hp
  refine ⟨hmem, ?_⟩
  have hrange := (mem_cellList rows cols p).mp (List.mem_toFinset.mp hmem)
  -- the stripped value of run 2 at p is positive, so y2 p = 1 and low < img p
  have hy2val : y2 p.1 p.2 = 1 ∧ low < img p.1 p.2 := by
    unfold stripProvisional at hpos
    by_cases h255 : y2 p.1 p.2 = 255
    · rw [if_pos ⟨hrange.1, hrange.2.1, hrange.2.2.1, hrange.2.2.2, h255⟩] at hpos
      exact absurd hpos (lt_irrefl 0)
    · have hpos' : 0 < y2 p.1 p.2 := by
        rwa [if_neg (fun hcon => h255 hcon.2.2.2.2)] at hpos
      rcases hf2 p.1 p.2 with h0 | ⟨_, himg, hval⟩
      · rw [h0] at hpos'
        exact absurd hpos' (lt_irrefl 0)
      · unfold markVal at hval
        by_cases hlow : low < img p.1 p.2
        · rw [if_pos hlow] at hval
          exact ⟨hval, hlow⟩
        · rw [if_neg hlow] at hval
          exact absurd hval h255
  -- hence run 1 also marked p, with the same first-visit mark 1
  have hy1ne : y1 p.1 p.2 ≠ 0 := hsub p.1 p.2 (by rw [hy2val.1]; exact one_ne_zero)
  have hy1val : y1 p.1 p.2 = 1 := by
    rcases hf1 p.1 p.2 with h0 | ⟨_, _, hval⟩
    · exact absurd h0 hy1ne
    · unfold markVal at hval
      rw [if_pos hy2val.2] at hval
      exact hval
  unfold stripProvisional
  rw [if_neg (fun hcon => by rw [hy1val] at hcon; exact absurd hcon.2.2.2.2 (by norm_num)),
    hy1val]
  exact Nat.zero_lt_one

/-- Witness for C7_amended_monotone: the chain grid `c7img` with thinning
disabled, thresholds 3 and 9/2. -/
theorem C7_amended_monotone_witness :
    (3 : ℚ) ≤ 9/2 ∧
    countEdges (thresholdEdges 0 (9/2) false 0 1 3 5 c7img) 3 5 ≤
      countEdges (thresholdEdges 0 3 true 0 1 3 5 c7img) 3 5 := by
  refine ⟨by norm_num, ?_⟩
  refine C7_amended_monotone 0 3 (9/2) true false 1 3 5 c7img ?_ (by norm_num)
  intro r c h
  unfold c7img at h
  by_cases h1 : r = 1 ∧ c = 1
  · obtain ⟨rfl, rfl⟩ := h1
    refine ⟨by norm_num, by norm_num, by norm_num, by norm_num⟩
  · rw [if_neg h1] at h
    by_cases h2 : r = 1 ∧ c = 2
    · obtain ⟨rfl, rfl⟩ := h2
      refine ⟨by norm_num, by norm_num, by norm_num, by norm_num⟩
    · rw [if_neg h2] at h
      by_cases h3 : r = 1 ∧ c = 3
      · obtain ⟨rfl, rfl⟩ := h3
        refine ⟨by norm_num, by norm_num, by norm_num, by norm_num⟩
      · rw [if_neg h3] at h
        exact absurd rfl h

lemma seedScan_no_seeds (low high : ℚ) (thin outline rows cols : ℕ) (img : Grid)
    (fuel : ℕ) :
    ∀ l e, (∀ p ∈ l, ¬ high < img p.1 p.2) →
      seedScan low high thin outline rows cols img fuel e l = some e := by
  intro l
  induction l with
  | nil =>
    intro e _
    rw [seedScan]
  | cons q ps ih =>
    intro e hl
    rw [seedScan]
    by_cases hb : isEdge outline rows cols q.1 q.2 = true
    · rw [if_pos hb]
      exact ih e (fun p hp => hl p (List.mem_cons_of_mem q hp))
    · rw [if_neg hb, if_neg (hl q (List.mem_cons_self q ps))]
      exact ih e (fun p hp => hl p (List.mem_cons_of_mem q hp))

set_option maxRecDepth 100000 in
/-- C8: on the 10×10 all-100 grid with outline 2 (and the notebook's remaining
constants: s = 9/10, window 6, thresholds 2/2, hysteresis off, thinning off),
`shenCastan` returns the all-zero edge grid: the smoothed image never exceeds
the original, so the binary Laplacian is identically 0, no pixel is an edge
candidate, every strength is 0, and the tracer finds no seeds. -/
theorem C8_uniform_allzero :
    ∀ r c : Fin 10,
      shenCastan (9/10) 6 2 2 2 false 0 uni100 10 10 ((r : ℕ) : ℤ) ((c : ℕ) : ℤ) = 0 := by
  have hnoseed : ∀ p ∈ cellList 10 10, ¬ (2 : ℚ) <
      locateZc (getISEF (9/10) uni100 10 10)
        (getBLI uni100 (getISEF (9/10) uni100 10 10) 10 10) 10 10 2 6 p.1 p.2 := by
    with_unfolding_all decide
  intro r c
  unfold shenCastan
  have hrange : (0 : ℤ) ≤ ((r : ℕ) : ℤ) ∧ ((r : ℕ) : ℤ) < ((10 : ℕ) : ℤ) ∧
      (0 : ℤ) ≤ ((c : ℕ) : ℤ) ∧ ((c : ℕ) : ℤ) < ((10 : ℕ) : ℤ) := by
    have hr := r.isLt
    have hc := c.isLt
    refine ⟨by omega, by omega, by omega, by omega⟩
  rw [if_pos hrange]
  have hTE : thresholdEdges 2 2 false 0 2 10 10
      (locateZc (getISEF (9/10) uni100 10 10)
        (getBLI uni100 (getISEF (9/10) uni100 10 10) 10 10) 10 10 2 6)
      ((r : ℕ) : ℤ) ((c : ℕ) : ℤ) = 0 := by
    unfold thresholdEdges thresholdEdgesO
    rw [seedScan_no_seeds 2 2 0 2 10 10 _ (10 * 10 + 2) (cellList 10 10)
      (fun _ _ => 0) hnoseed]
    show stripProvisional 10 10 (fun _ _ => 0) ((r : ℕ) : ℤ) ((c : ℕ) : ℤ) = 0
    unfold stripProvisional
    rw [if_neg (fun hcon => absurd hcon.2.2.2.2 (by norm_num))]
  rw [hTE]
  rfl

lemma list_sum_filter_map {M : Type} [AddCommMonoid M] (p : ℤ × ℤ → Bool)
    (f : ℤ × ℤ → M) :
    ∀ l : List (ℤ × ℤ),
      ((l.filter p).map f).sum = (l.map (fun a => if p a then f a else 0)).sum := by
  intro l
  induction l with
  | nil => rfl
  | cons a as ih =>
    rw [List.filter_cons, List.map_cons]
    by_cases hp : p a
    · rw [if_pos hp, if_pos hp, List.map_cons, List.sum_cons, List.sum_cons, ih]
    · rw [if_neg hp, if_neg hp, List.sum_cons, ih, zero_add]

lemma list_length_filter (p : ℤ × ℤ → Bool) :
    ∀ l : List (ℤ × ℤ),
      (l.filter p).length = (l.map (fun a => if p a then (1 : ℕ) else 0)).sum := by
  intro l
  induction l with
  | nil => rfl
  | cons a as ih =>
    rw [List.filter_cons, List.map_cons, List.sum_cons]
    by_cases hp : p a
    · rw [if_pos hp, if_pos hp, List.length_cons, ih]
      omega
    · rw [if_neg hp, if_neg hp, ih, zero_add]

lemma list_sum_map_flatMap {M : Type} [AddCommMonoid M] (g : ℤ → List (ℤ × ℤ))
    (f : ℤ × ℤ → M) :
    ∀ l : List ℤ,
      ((l.flatMap g).map f).sum = (l.map (fun a => ((g a).map f).sum)).sum := by
  intro l
  induction l with
  | nil => rfl
  | cons a as ih =>
    rw [List.flatMap_cons, List.map_append, List.sum_append, List.map_cons,
      List.sum_cons, ih]

lemma list_sum_map_range {M : Type} [AddCommMonoid M] (f : ℕ → M) :
    ∀ n : ℕ, ((List.range n).map f).sum = ∑ k ∈ Finset.range n, f k := by
  intro n
  induction n with
  | zero => rfl
  | succ m ih =>
    rw [List.range_succ, List.map_append, List.sum_append, Finset.sum_range_succ, ih]
    simp

lemma winOffsets_sum {M : Type} [AddCommMonoid M] (ws : ℕ) (g : ℤ → M) :
    ((winOffsets ws).map g).sum =
      ∑ i ∈ Finset.Ico (-((ws / 2 : ℕ) : ℤ)) ((ws / 2 : ℕ) : ℤ), g i := by
  unfold winOffsets
  rw [List.map_map]
  have h1 : ((List.range (ws / 2 + ws / 2)).map
      (g ∘ fun k : ℕ => (k : ℤ) - (ws / 2 : ℕ))).sum =
      ∑ k ∈ Finset.range (ws / 2 + ws / 2), g ((k : ℤ) - (ws / 2 : ℕ)) :=
    list_sum_map_range _ _
  rw [h1]
  have himg : (Finset.range (ws / 2 + ws / 2)).image
      (fun k : ℕ => (k : ℤ) - ((ws / 2 : ℕ) : ℤ)) =
      Finset.Ico (-((ws / 2 : ℕ) : ℤ)) ((ws / 2 : ℕ) : ℤ) := by
    ext i
    simp only [Finset.mem_image, Finset.mem_range, Finset.mem_Ico]
    constructor
    · rintro ⟨k, hk, rfl⟩
      omega
    · rintro ⟨hl, hr⟩
      exact ⟨(i + (ws / 2 : ℕ)).toNat, by omega, by omega⟩
  rw [← himg, Finset.sum_image]
  intro a _ b _ hab
  omega

lemma windowCells_sum {M : Type} [AddCommMonoid M] (ws : ℕ) (row col : ℤ)
    (f : ℤ × ℤ → M) :
    ((windowCells ws row col).map f).sum =
      ∑ d ∈ zcWindow ws, f (row + d.1, col + d.2) := by
  unfold windowCells zcWindow
  rw [list_sum_map_flatMap]
  have hinner : ∀ i : ℤ, (((winOffsets ws).map (fun j => (row + i, col + j))).map f).sum =
      ∑ j ∈ Finset.Ico (-((ws / 2 : ℕ) : ℤ)) ((ws / 2 : ℕ) : ℤ), f (row + i, col + j) := by
    intro i
    rw [List.map_map]
    exact winOffsets_sum ws (f ∘ fun j => (row + i, col + j))
  have houter : ((winOffsets ws).map
      (fun i => (((winOffsets ws).map (fun j => (row + i, col + j))).map f).sum)).sum =
      ((winOffsets ws).map (fun i =>
        ∑ j ∈ Finset.Ico (-((ws / 2 : ℕ) : ℤ)) ((ws / 2 : ℕ) : ℤ), f (row + i, col + j))).sum := by
    congr 1
    exact List.map_congr_left (fun i _ => hinner i)
  rw [houter, winOffsets_sum ws
    (fun i => ∑ j ∈ Finset.Ico (-((ws / 2 : ℕ) : ℤ)) ((ws / 2 : ℕ) : ℤ), f (row + i, col + j)),
    Finset.sum_product]

lemma adaptiveGradient_eq_gradSpec (bli isef : Grid) (rows cols ws : ℕ) (row col : ℤ) :
    adaptiveGradient bli isef rows cols ws row col =
      gradSpec bli isef rows cols ws row col := by
  have hsumOff : sumOff bli isef rows cols ws row col =
      ∑ d ∈ (zcWindow ws).filter
        (fun d => ¬ 0 < pyGet bli rows cols (row + d.1) (col + d.2)),
        pyGet isef rows cols (row + d.1) (col + d.2) := by
    unfold sumOff windowOff
    rw [list_sum_filter_map, windowCells_sum ws row col
      (fun p => if decide (¬ 0 < pyGet bli rows cols p.1 p.2) = true then
        pyGet isef rows cols p.1 p.2 else 0), Finset.sum_filter]
    apply Finset.sum_congr rfl
    intro d _
    simp only [decide_eq_true_eq]
  have hsumOn : sumOn bli isef rows cols ws row col =
      ∑ d ∈ (zcWindow ws).filter
        (fun d => 0 < pyGet bli rows cols (row + d.1) (col + d.2)),
        pyGet isef rows cols (row + d.1) (col + d.2) := by
    unfold sumOn windowOn
    rw [list_sum_filter_map, windowCells_sum ws row col
      (fun p => if decide (0 < pyGet bli rows cols p.1 p.2) = true then
        pyGet isef rows cols p.1 p.2 else 0), Finset.sum_filter]
    apply Finset.sum_congr rfl
    intro d _
    simp only [decide_eq_true_eq]
  have hlenOff : (windowOff bli rows cols ws row col).length =
      ((zcWindow ws).filter
        (fun d => ¬ 0 < pyGet bli rows cols (row + d.1) (col + d.2))).card := by
    unfold windowOff
    rw [list_length_filter, windowCells_sum ws row col
      (fun p => if decide (¬ 0 < pyGet bli rows cols p.1 p.2) = true then
        (1 : ℕ) else 0), Finset.card_filter]
    apply Finset.sum_congr rfl
    intro d _
    simp only [decide_eq_true_eq]
  have hlenOn : (windowOn bli rows cols ws row col).length =
      ((zcWindow ws).filter
        (fun d => 0 < pyGet bli rows cols (row + d.1) (col + d.2))).card := by
    unfold windowOn
    rw [list_length_filter, windowCells_sum ws row col
      (fun p => if decide (0 < pyGet bli rows cols p.1 p.2) = true then
        (1 : ℕ) else 0), Finset.card_filter]
    apply Finset.sum_congr rfl
    intro d _
    simp only [decide_eq_true_eq]
  unfold adaptiveGradient gradSpec
  rw [hsumOff, hsumOn, hlenOff, hlenOn]

/-- C4: `locateZc` computes exactly the claim's formula at every pixel: 0 when
out of range or in the border region, `avg_off - avg_on` over the square
window spanning `[-window_size/2, window_size/2)` with each side's average
guarded to 0 when its sum is not positive whenever one of the four
directional patterns fires (checked in priority order, first match wins),
and 0 otherwise. -/
theorem C4_locateZc_spec (isef bli : Grid) (rows cols outline ws : ℕ) (r c : ℤ) :
    locateZc isef bli rows cols outline ws r c =
      zcSpec isef bli rows cols outline ws r c := by
  unfold locateZc zcSpec
  by_cases h : 0 ≤ r ∧ r < (rows : ℤ) ∧ 0 ≤ c ∧ c < (cols : ℤ)
  · rw [if_pos h, if_pos h]
    by_cases hb : isEdge outline rows cols r c = true
    · rw [if_pos hb, if_pos hb]
    · rw [if_neg hb, if_neg hb]
      have hcand : isEdgeCandidate bli isef rows cols r c =
          candSpec bli isef rows cols r c := rfl
      rw [hcand]
      by_cases hc : candSpec bli isef rows cols r c = true
      · rw [if_pos hc, if_pos hc]
        exact adaptiveGradient_eq_gradSpec bli isef rows cols ws r c
      · rw [if_neg hc, if_neg hc]
  · rw [if_neg h, if_neg h]
